import Mathlib

/-!
Shallow embedding of the ProMan Kanban backend (`backend/app/main.py`).

The Python program keeps three module-level dictionaries `projects`,
`columns`, `tasks` mapping an entity id to the entity (the key always equals
the entity's own `id` field).  We model each dictionary as a list of entities
in insertion order; assigning to an existing key replaces the entry in place,
assigning to a fresh key appends (`dictUpd`), and `del d[k]` removes the
entries whose id is `k`.  Every HTTP handler becomes a pure function from a
`Store` (the three dictionaries) to a result paired with the successor store;
`raise HTTPException(404, ...)` becomes an `Except.error` result paired with
the store as it was at the raise site (in the source every raise happens
before any mutation, so that store is the input store).  Fresh `uuid4()` ids
are passed in as parameters.
-/

namespace ProjectTracker

/-- Stored project entity, mirroring the `Project` pydantic model. -/
structure Project where
  id : String
  name : String
  description : Option String
deriving DecidableEq

/-- Stored column entity, mirroring the `Column` pydantic model. -/
structure Column where
  id : String
  project_id : String
  name : String
  order : Int
deriving DecidableEq

/-- Stored task entity, mirroring the `Task` pydantic model. -/
structure Task where
  id : String
  project_id : String
  column_id : String
  title : String
  description : Option String
  order : Int
deriving DecidableEq

/-- One optional field of a pydantic PATCH payload.  `model_dump(exclude_unset=True)`
distinguishes a field that was omitted (`unset`), a field explicitly sent as
JSON `null` (`null`), and a field sent with a value (`val v`). -/
inductive Patch (α : Type) where
  | unset
  | null
  | val (v : α)
deriving DecidableEq

/-- `ProjectCreate` request body. -/
structure ProjectCreate where
  name : String
  description : Option String
deriving DecidableEq

/-- `ProjectUpdate` request body, with unset-tracking per field. -/
structure ProjectUpdate where
  name : Patch String
  description : Patch String
deriving DecidableEq

/-- `ColumnCreate` request body. -/
structure ColumnCreate where
  name : String
deriving DecidableEq

/-- `TaskCreate` request body. -/
structure TaskCreate where
  title : String
  description : Option String
  column_id : String
deriving DecidableEq

/-- `TaskMove` request body. -/
structure TaskMove where
  column_id : String
  order : Int
deriving DecidableEq

/-- `TaskUpdate` request body, with unset-tracking per field. -/
structure TaskUpdate where
  title : Patch String
  description : Patch String
deriving DecidableEq

/-- `KanbanColumn` read-only projection. -/
structure KanbanColumn where
  id : String
  name : String
  order : Int
  tasks : List Task
deriving DecidableEq

/-- `KanbanBoard` read-only projection. -/
structure KanbanBoard where
  project : Project
  columns : List KanbanColumn
deriving DecidableEq

/-- The one error kind of the backend: `HTTPException(status_code=404, detail)`. -/
inductive Err where
  | notFound (detail : String)
deriving DecidableEq

/-- The three module-level dictionaries, as insertion-ordered lists. -/
structure Store where
  projects : List Project
  columns : List Column
  tasks : List Task
deriving DecidableEq

/-- Python dict assignment `d[key x] = x`: replace the entry carrying that key
if present, otherwise append a new entry. -/
def dictUpd {α : Type} (key : α → String) (l : List α) (x : α) : List α :=
  if l.any (fun y => key y == key x) then
    l.map (fun y => if key y == key x then x else y)
  else
    l ++ [x]

/-- Python `max(iterable, default=d)`: `d` on an empty iterable, else the
maximum element. -/
def pyMax (dflt : Int) : List Int → Int
  | [] => dflt
  | x :: xs => xs.foldl max x

/-- Python `list.insert(n, x)`: insert `x` before index `n`, appending when
`n` is at least the length. -/
def listInsert {α : Type} (n : Nat) (x : α) : List α → List α
  | [] => [x]
  | y :: ys =>
    match n with
    | 0 => x :: y :: ys
    | n + 1 => y :: listInsert n x ys

/-- The reindex loop `for idx, t in enumerate(siblings): t.order = idx`,
started at index `i`. -/
def reindexFrom (i : Nat) : List Task → List Task
  | [] => []
  | t :: ts => { t with order := (i : Int) } :: reindexFrom (i + 1) ts

/-- `POST /projects`: create the project and auto-provision the three default
columns.  The four fresh `uuid4()` ids are parameters. -/
def create_project (s : Store) (payload : ProjectCreate)
    (pid cid1 cid2 cid3 : String) : Except Err Project × Store :=
  let project : Project := { id := pid, name := payload.name, description := payload.description }
  let todo_col : Column := { id := cid1, project_id := pid, name := "To Do", order := 0 }
  let doing_col : Column := { id := cid2, project_id := pid, name := "In Progress", order := 1 }
  let done_col : Column := { id := cid3, project_id := pid, name := "Done", order := 2 }
  (.ok project,
    { s with
      projects := dictUpd Project.id s.projects project,
      columns := [todo_col, doing_col, done_col].foldl (dictUpd Column.id) s.columns })

/-- `GET /projects/{project_id}`. -/
def get_project (s : Store) (pid : String) : Except Err Project × Store :=
  match s.projects.find? (fun p => p.id == pid) with
  | none => (.error (.notFound "Project not found"), s)
  | some project => (.ok project, s)

/-- `PATCH /projects/{project_id}`: partial update.  A provided non-null
`name` replaces the name (a provided `null` name is ignored); a provided
`description` — null or not — replaces the description. -/
def update_project (s : Store) (pid : String) (payload : ProjectUpdate) :
    Except Err Project × Store :=
  match s.projects.find? (fun p => p.id == pid) with
  | none => (.error (.notFound "Project not found"), s)
  | some project =>
    let project1 :=
      match payload.name with
      | .val v => { project with name := v }
      | _ => project
    let project2 :=
      match payload.description with
      | .unset => project1
      | .null => { project1 with description := none }
      | .val v => { project1 with description := some v }
    (.ok project2, { s with projects := dictUpd Project.id s.projects project2 })

/-- `DELETE /projects/{project_id}`: delete the project, every column whose
`project_id` matches, and every task whose `project_id` matches. -/
def delete_project (s : Store) (pid : String) : Except Err Unit × Store :=
  if s.projects.any (fun p => p.id == pid) then
    (.ok (),
      { projects := s.projects.filter (fun p => p.id != pid),
        columns := s.columns.filter (fun c => c.project_id != pid),
        tasks := s.tasks.filter (fun t => t.project_id != pid) })
  else
    (.error (.notFound "Project not found"), s)

/-- `GET /projects/{project_id}/kanban`: read-only board projection. -/
def get_kanban_board (s : Store) (pid : String) : Except Err KanbanBoard × Store :=
  match s.projects.find? (fun p => p.id == pid) with
  | none => (.error (.notFound "Project not found"), s)
  | some project =>
    let project_columns :=
      List.insertionSort (fun a b => a.order ≤ b.order)
        (s.columns.filter (fun c => c.project_id == pid))
    let kanban_columns := project_columns.map (fun col =>
      { id := col.id, name := col.name, order := col.order,
        tasks := List.insertionSort (fun a b => a.order ≤ b.order)
          (s.tasks.filter (fun t => t.column_id == col.id)) : KanbanColumn })
    (.ok { project := project, columns := kanban_columns }, s)

/-- The column built by `create_column`: order is
`max(sibling orders, default=-1) + 1`. -/
def newColumnOf (s : Store) (pid : String) (payload : ColumnCreate) (new_id : String) : Column :=
  { id := new_id, project_id := pid, name := payload.name,
    order := pyMax (-1) ((s.columns.filter (fun c => c.project_id == pid)).map Column.order) + 1 }

/-- `POST /projects/{project_id}/columns`: append a column with order
`max(sibling orders, default=-1) + 1`.  The fresh id is a parameter. -/
def create_column (s : Store) (pid : String) (payload : ColumnCreate)
    (new_id : String) : Except Err Column × Store :=
  if s.projects.any (fun p => p.id == pid) then
    (.ok (newColumnOf s pid payload new_id),
      { s with columns := dictUpd Column.id s.columns (newColumnOf s pid payload new_id) })
  else
    (.error (.notFound "Project not found"), s)

/-- The task built by `create_task`: order is
`max(sibling orders, default=-1) + 1`. -/
def newTaskOf (s : Store) (pid : String) (payload : TaskCreate) (new_id : String) : Task :=
  { id := new_id, project_id := pid, column_id := payload.column_id,
    title := payload.title, description := payload.description,
    order := pyMax (-1) ((s.tasks.filter (fun t => t.column_id == payload.column_id)).map Task.order) + 1 }

/-- `POST /projects/{project_id}/tasks`: append a task with order
`max(sibling orders, default=-1) + 1`.  The fresh id is a parameter. -/
def create_task (s : Store) (pid : String) (payload : TaskCreate)
    (new_id : String) : Except Err Task × Store :=
  if s.projects.any (fun p => p.id == pid) then
    if s.columns.any (fun c => c.id == payload.column_id) then
      (.ok (newTaskOf s pid payload new_id),
        { s with tasks := dictUpd Task.id s.tasks (newTaskOf s pid payload new_id) })
    else (.error (.notFound "Column not found"), s)
  else (.error (.notFound "Project not found"), s)

/-- The destination siblings of a move: every task in the target column other
than the moved one, sorted (stably) ascending by current order. -/
def moveSiblings (s : Store) (task_id cid : String) : List Task :=
  List.insertionSort (fun a b => a.order ≤ b.order)
    (s.tasks.filter (fun t => t.column_id == cid && t.id != task_id))

/-- `insert_index = max(0, min(payload.order, len(siblings)))`. -/
def moveIndex (s : Store) (task_id : String) (payload : TaskMove) : Nat :=
  (max 0 (min payload.order ((moveSiblings s task_id payload.column_id).length : Int))).toNat

/-- The destination sibling list after inserting the moved task at the clamped
index and reassigning each element's order to its list index. -/
def moveReordered (s : Store) (task_id : String) (payload : TaskMove) (task : Task) : List Task :=
  reindexFrom 0 (listInsert (moveIndex s task_id payload) task (moveSiblings s task_id payload.column_id))

/-- The moved task as finally stored and returned: new order is the clamped
insertion index, new column is the target column. -/
def movedTask (s : Store) (task_id : String) (payload : TaskMove) (task : Task) : Task :=
  { task with order := (moveIndex s task_id payload : Int), column_id := payload.column_id }

/-- `PATCH /tasks/{task_id}/move`: validate task and target column, build the
destination sibling list, insert the task at the clamped index, write every
reindexed sibling back to the dictionary, then write the moved task with its
new `column_id`. -/
def move_task (s : Store) (task_id : String) (payload : TaskMove) :
    Except Err Task × Store :=
  match s.tasks.find? (fun t => t.id == task_id) with
  | none => (.error (.notFound "Task not found"), s)
  | some task =>
    if s.columns.any (fun c => c.id == payload.column_id) then
      let ts1 := (moveReordered s task_id payload task).foldl (dictUpd Task.id) s.tasks
      (.ok (movedTask s task_id payload task),
        { s with tasks := dictUpd Task.id ts1 (movedTask s task_id payload task) })
    else (.error (.notFound "Target column not found"), s)

/-- `DELETE /tasks/{task_id}`: remove exactly that dictionary entry. -/
def delete_task (s : Store) (task_id : String) : Except Err Unit × Store :=
  if s.tasks.any (fun t => t.id == task_id) then
    (.ok (), { s with tasks := s.tasks.filter (fun t => t.id != task_id) })
  else
    (.error (.notFound "Task not found"), s)

/-- `PATCH /tasks/{task_id}`: partial update.  A provided non-null `title`
replaces the title (a provided `null` title is ignored); a provided
`description` — null or not — replaces the description. -/
def update_task (s : Store) (task_id : String) (payload : TaskUpdate) :
    Except Err Task × Store :=
  match s.tasks.find? (fun t => t.id == task_id) with
  | none => (.error (.notFound "Task not found"), s)
  | some task =>
    let task1 :=
      match payload.title with
      | .val v => { task with title := v }
      | _ => task
    let task2 :=
      match payload.description with
      | .unset => task1
      | .null => { task1 with description := none }
      | .val v => { task1 with description := some v }
    (.ok task2, { s with tasks := dictUpd Task.id s.tasks task2 })

/-- The tasks currently stored in column `cid`, in dictionary order. -/
def tasksIn (s : Store) (cid : String) : List Task :=
  s.tasks.filter (fun t => t.column_id == cid)

/-- Well-formedness of the dictionaries: ids are unique per entity kind
(guaranteed in the real system because keys of a Python dict are unique and
ids are fresh `uuid4()` values). -/
def WF (s : Store) : Prop :=
  (s.projects.map Project.id).Nodup ∧ (s.columns.map Column.id).Nodup ∧
    (s.tasks.map Task.id).Nodup

instance (s : Store) : Decidable (WF s) := by unfold WF; infer_instance

/-- Column `cid` is densely ordered: the multiset of task orders in the column
is exactly `{0, 1, ..., count-1}`. -/
def denseColumn (s : Store) (cid : String) : Prop :=
  List.Perm ((tasksIn s cid).map Task.order) ((List.range (tasksIn s cid).length).map (fun k : Nat => (k : Int)))

instance (s : Store) (cid : String) : Decidable (denseColumn s cid) := by
  unfold denseColumn; infer_instance

/-- Number of destination siblings of a prospective move (destination tasks
excluding the moved task). -/
def siblingCount (s : Store) (task_id cid : String) : Nat :=
  (s.tasks.filter (fun t => t.column_id == cid && t.id != task_id)).length

/-- The columns of project `pid`, in dictionary order. -/
def columnsOf (s : Store) (pid : String) : List Column :=
  s.columns.filter (fun c => c.project_id == pid)

/-- The columns of project `pid` are densely ordered. -/
def denseProjectColumns (s : Store) (pid : String) : Prop :=
  List.Perm ((columnsOf s pid).map Column.order)
    ((List.range (columnsOf s pid).length).map (fun k : Nat => (k : Int)))

instance (s : Store) (pid : String) : Decidable (denseProjectColumns s pid) := by
  unfold denseProjectColumns; infer_instance

/-- The effect on a single stored entity of the batch of dictionary writes
performed by the move loop: the entity is replaced by the (unique) update
carrying its key, if any. -/
def applyUpds {α : Type} (key : α → String) (rs : List α) (t : α) : α :=
  (rs.find? (fun r => key r == key t)).getD t

/-- Pointwise effect of a successful `move_task` on each stored task: the
moved task becomes `movedTask`, a destination sibling is replaced by its
reindexed version, and everything else is untouched. -/
def moveF (s : Store) (task_id : String) (payload : TaskMove) (task : Task) (t : Task) : Task :=
  if t.id == task_id then movedTask s task_id payload task
  else applyUpds Task.id (moveReordered s task_id payload task) t

/-- The list of tasks the destination column holds after the move, as the
specification describes it: destination tasks except the moved one sorted
ascending by order, the moved task inserted at the clamped index, orders
reassigned to list indices, and the moved task's `column_id` set to the
target column. -/
def moveFinal (s : Store) (task_id : String) (payload : TaskMove) (task : Task) : List Task :=
  (moveReordered s task_id payload task).map
    (fun r => if r.id == task_id then { r with column_id := payload.column_id } else r)

/-- All states reachable from a start state by any sequence of `create_task`
and `move_task` operations whose destination column is `cid`.  Fresh ids for
created tasks model `uuid4()` uniqueness. -/
inductive ReachDest (cid : String) : Store → Store → Prop where
  | refl (s : Store) : ReachDest cid s s
  | createStep (s1 s2 : Store) (pid : String) (payload : TaskCreate) (new_id : String)
      (h : ReachDest cid s1 s2) (hc : payload.column_id = cid)
      (hfresh : new_id ∉ s2.tasks.map Task.id) :
      ReachDest cid s1 (create_task s2 pid payload new_id).2
  | moveStep (s1 s2 : Store) (task_id : String) (payload : TaskMove)
      (h : ReachDest cid s1 s2) (hc : payload.column_id = cid) :
      ReachDest cid s1 (move_task s2 task_id payload).2

/-! ### Concrete stores used to exercise the theorems -/

/-- A small well-formed store: project `p1` with columns `c1` (tasks
A(0), B(1), C(2)) and `c2` (task T(0)). -/
def demoStore : Store :=
  ⟨[⟨"p1", "P", none⟩],
   [⟨"c1", "p1", "To Do", 0⟩, ⟨"c2", "p1", "Doing", 1⟩],
   [⟨"tA", "p1", "c1", "A", none, 0⟩, ⟨"tB", "p1", "c1", "B", none, 1⟩,
    ⟨"tC", "p1", "c1", "C", none, 2⟩, ⟨"t4", "p1", "c2", "T", none, 0⟩]⟩

/-- A store with source column `c1` holding X(0), Y(1), Z(2) and an empty
destination column `c2`. -/
def gapStore : Store :=
  ⟨[⟨"p1", "P", none⟩],
   [⟨"c1", "p1", "S", 0⟩, ⟨"c2", "p1", "D", 1⟩],
   [⟨"tX", "p1", "c1", "X", none, 0⟩, ⟨"tY", "p1", "c1", "Y", none, 1⟩,
    ⟨"tZ", "p1", "c1", "Z", none, 2⟩]⟩

/-- The empty store (state of the dictionaries at process start). -/
def emptyStore : Store := ⟨[], [], []⟩

/-- Reachable chain for the cross-project scenario: two projects, a task
created in project `p2` (column `d1`), then moved into project `p1`'s
column `c1`. -/
def cexStore1 : Store := (create_project emptyStore ⟨"P1", none⟩ "p1" "c1" "c2" "c3").2

def cexStore2 : Store := (create_project cexStore1 ⟨"P2", none⟩ "p2" "d1" "d2" "d3").2

def cexStore3 : Store := (create_task cexStore2 "p2" ⟨"T", none, "d1"⟩ "t1").2

def cexStore4 : Store := (move_task cexStore3 "t1" ⟨"c1", 0⟩).2

/-- Reachable chain producing a column with a gap in its order sequence:
two tasks appended to `c1`, then the first one deleted, leaving order 1
alone in a group of size 1. -/
def holeStore1 : Store := (create_task cexStore1 "p1" ⟨"A", none, "c1"⟩ "h1").2

def holeStore2 : Store := (create_task holeStore1 "p1" ⟨"B", none, "c1"⟩ "h2").2

def holeStore3 : Store := (delete_task holeStore2 "h1").2

/-! ### Dictionary-update lemmas -/

theorem key_applyUpds {α : Type} (key : α → String) (rs : List α) (t : α) :
    key (applyUpds key rs t) = key t := by
  unfold applyUpds
  cases hfind : rs.find? (fun r => key r == key t) with
  | none => rfl
  | some r =>
    have h := List.find?_some hfind
    simp only [beq_iff_eq] at h
    simp [h]

theorem dictUpd_present {α : Type} (key : α → String) (l : List α) (x : α)
    (h : key x ∈ l.map key) :
    dictUpd key l x = l.map (fun y => if key y == key x then x else y) := by
  unfold dictUpd
  rw [if_pos]
  rw [List.any_eq_true]
  rcases List.mem_map.1 h with ⟨y, hy, hky⟩
  exact ⟨y, hy, by simp [hky]⟩

theorem dictUpd_fresh {α : Type} (key : α → String) (l : List α) (x : α)
    (h : key x ∉ l.map key) :
    dictUpd key l x = l ++ [x] := by
  unfold dictUpd
  rw [if_neg]
  rw [List.any_eq_true]
  rintro ⟨y, hy, hky⟩
  simp only [beq_iff_eq] at hky
  exact h (hky ▸ List.mem_map_of_mem key hy)

theorem map_key_replace {α : Type} (key : α → String) (l : List α) (x : α) :
    (l.map (fun y => if key y == key x then x else y)).map key = l.map key := by
  rw [List.map_map]
  apply List.map_congr_left
  intro y _
  by_cases h : key y = key x
  · simp [h]
  · simp [h]

theorem foldl_dictUpd_eq_map {α : Type} (key : α → String) (rs : List α) (ts : List α)
    (hrs : (rs.map key).Nodup) (hsub : ∀ r ∈ rs, key r ∈ ts.map key) :
    rs.foldl (dictUpd key) ts = ts.map (applyUpds key rs) := by
  induction rs generalizing ts with
  | nil =>
    simp only [List.foldl_nil, applyUpds, List.find?_nil, Option.getD_none]
    exact (List.map_id' ts).symm
  | cons r rs ih =>
    rw [List.foldl_cons]
    have hpres : key r ∈ ts.map key := hsub r (List.mem_cons_self r rs)
    rw [List.map_cons, List.nodup_cons] at hrs
    have hnotin : key r ∉ rs.map key := hrs.1
    rw [dictUpd_present key ts r hpres]
    rw [ih (ts.map (fun y => if key y == key r then r else y)) hrs.2 (by
      intro x hx
      rw [map_key_replace]
      exact hsub x (List.mem_cons_of_mem r hx))]
    rw [List.map_map]
    apply List.map_congr_left
    intro t _
    show applyUpds key rs (if key t == key r then r else t) = applyUpds key (r :: rs) t
    by_cases h : key t = key r
    · rw [if_pos (by simp [h])]
      unfold applyUpds
      rw [List.find?_cons_of_pos _ (by simp [h])]
      have hnone : rs.find? (fun x => key x == key r) = none := by
        rw [List.find?_eq_none]
        intro x hx
        simp only [beq_iff_eq]
        intro hc
        exact hnotin (hc ▸ List.mem_map_of_mem key hx)
      simp [hnone, h]
    · rw [if_neg (by simp [h])]
      unfold applyUpds
      rw [List.find?_cons_of_neg _ (by simpa using fun hc => h hc.symm)]

/-! ### listInsert, reindexFrom, pyMax lemmas -/

theorem listInsert_perm {α : Type} (n : Nat) (x : α) (l : List α) :
    List.Perm (listInsert n x l) (x :: l) := by
  induction l generalizing n with
  | nil => simp [listInsert]
  | cons y ys ih =>
    cases n with
    | zero => simp [listInsert]
    | succ n =>
      simp only [listInsert]
      exact ((ih n).cons y).trans (List.Perm.swap x y ys)

theorem reindexFrom_map_id (i : Nat) (l : List Task) :
    (reindexFrom i l).map Task.id = l.map Task.id := by
  induction l generalizing i with
  | nil => rfl
  | cons t ts ih => simp [reindexFrom, ih]

theorem reindexFrom_length (i : Nat) (l : List Task) :
    (reindexFrom i l).length = l.length := by
  induction l generalizing i with
  | nil => rfl
  | cons t ts ih => simp [reindexFrom, ih]

theorem reindexFrom_map_order (i : Nat) (l : List Task) :
    (reindexFrom i l).map Task.order = (List.range' i l.length).map (fun k : Nat => (k : Int)) := by
  induction l generalizing i with
  | nil => rfl
  | cons t ts ih => simp [reindexFrom, List.range'_succ, ih]

theorem mem_reindexFrom (i : Nat) (l : List Task) (r : Task) (h : r ∈ reindexFrom i l) :
    ∃ t ∈ l, ∃ j : Nat, r = { t with order := (j : Int) } := by
  induction l generalizing i with
  | nil => cases h
  | cons t ts ih =>
    simp only [reindexFrom, List.mem_cons] at h
    rcases h with h | h
    · exact ⟨t, List.mem_cons_self t ts, i, h⟩
    · rcases ih (i + 1) h with ⟨u, hu, j, hj⟩
      exact ⟨u, List.mem_cons_of_mem t hu, j, hj⟩

theorem reindexFrom_mem_of_mem (i : Nat) (l : List Task) (t : Task) (h : t ∈ l) :
    ∃ j : Nat, { t with order := (j : Int) } ∈ reindexFrom i l := by
  induction l generalizing i with
  | nil => cases h
  | cons u us ih =>
    rcases List.mem_cons.1 h with rfl | h
    · exact ⟨i, List.mem_cons_self _ _⟩
    · rcases ih (i + 1) h with ⟨j, hj⟩
      exact ⟨j, List.mem_cons_of_mem _ hj⟩

theorem reindexFrom_listInsert_self (x : Task) (i n : Nat) (l : List Task)
    (hn : n ≤ l.length) :
    { x with order := ((i + n : Nat) : Int) } ∈ reindexFrom i (listInsert n x l) := by
  induction l generalizing i n with
  | nil =>
    have h0 : n = 0 := Nat.le_zero.mp hn
    subst h0
    simp [listInsert, reindexFrom]
  | cons y ys ih =>
    cases n with
    | zero => simp [listInsert, reindexFrom]
    | succ n =>
      simp only [listInsert, reindexFrom, List.mem_cons]
      right
      have e : i + (n + 1) = (i + 1) + n := by omega
      rw [e]
      exact ih (i + 1) n (Nat.le_of_succ_le_succ hn)

theorem le_foldl_max (l : List Int) (a : Int) :
    a ≤ l.foldl max a ∧ ∀ x ∈ l, x ≤ l.foldl max a := by
  induction l generalizing a with
  | nil => simp
  | cons y ys ih =>
    rw [List.foldl_cons]
    rcases ih (max a y) with ⟨h1, h2⟩
    refine ⟨le_trans (le_max_left a y) h1, ?_⟩
    intro x hx
    rcases List.mem_cons.1 hx with rfl | hx
    · exact le_trans (le_max_right a x) h1
    · exact h2 x hx

theorem le_pyMax (d : Int) (l : List Int) (x : Int) (h : x ∈ l) : x ≤ pyMax d l := by
  cases l with
  | nil => cases h
  | cons y ys =>
    rcases List.mem_cons.1 h with rfl | h
    · exact (le_foldl_max ys x).1
    · exact (le_foldl_max ys y).2 x h

theorem foldl_max_mem (l : List Int) (a : Int) : l.foldl max a = a ∨ l.foldl max a ∈ l := by
  induction l generalizing a with
  | nil => left; rfl
  | cons z zs ih =>
    rw [List.foldl_cons]
    rcases ih (max a z) with h | h
    · rcases max_choice a z with hm | hm
      · left; rw [h, hm]
      · right; rw [h, hm]; exact List.mem_cons_self z zs
    · right; exact List.mem_cons_of_mem z h

theorem pyMax_mem (d : Int) (l : List Int) : pyMax d l = d ∨ pyMax d l ∈ l := by
  cases l with
  | nil => left; rfl
  | cons y ys =>
    right
    show ys.foldl max y ∈ y :: ys
    rcases foldl_max_mem ys y with h | h
    · rw [h]; exact List.mem_cons_self y ys
    · exact List.mem_cons_of_mem y h

/-! ### Structure of the store after `move_task` -/

theorem task_id_of_find (s : Store) (task_id : String) (task : Task)
    (hfind : s.tasks.find? (fun t => t.id == task_id) = some task) :
    task.id = task_id := by
  have h := List.find?_some hfind
  simpa using h

theorem task_mem_of_find (s : Store) (task_id : String) (task : Task)
    (hfind : s.tasks.find? (fun t => t.id == task_id) = some task) :
    task ∈ s.tasks :=
  List.mem_of_find?_eq_some hfind

theorem mem_moveSiblings (s : Store) (task_id cid : String) (t : Task)
    (h : t ∈ moveSiblings s task_id cid) :
    t ∈ s.tasks ∧ t.column_id = cid ∧ t.id ≠ task_id := by
  unfold moveSiblings at h
  rw [List.mem_insertionSort] at h
  rcases List.mem_filter.1 h with ⟨hmem, hp⟩
  simp only [Bool.and_eq_true, beq_iff_eq, bne_iff_ne] at hp
  exact ⟨hmem, hp.1, hp.2⟩

theorem moveSiblings_of_mem (s : Store) (task_id cid : String) (t : Task)
    (hmem : t ∈ s.tasks) (hcol : t.column_id = cid) (hid : t.id ≠ task_id) :
    t ∈ moveSiblings s task_id cid := by
  unfold moveSiblings
  rw [List.mem_insertionSort]
  exact List.mem_filter.2 ⟨hmem, by simp [hcol, hid]⟩

theorem moveSiblings_ids_nodup (s : Store) (task_id cid : String)
    (hwf : (s.tasks.map Task.id).Nodup) :
    ((moveSiblings s task_id cid).map Task.id).Nodup := by
  unfold moveSiblings
  have hperm := List.perm_insertionSort (fun a b : Task => a.order ≤ b.order)
    (s.tasks.filter (fun t => t.column_id == cid && t.id != task_id))
  refine ((hperm.map Task.id).nodup_iff).2 ?_
  exact ((List.filter_sublist s.tasks).map Task.id).nodup hwf

theorem moveIndex_le (s : Store) (task_id : String) (payload : TaskMove) :
    moveIndex s task_id payload ≤ (moveSiblings s task_id payload.column_id).length := by
  unfold moveIndex
  omega

theorem moveReordered_ids (s : Store) (task_id : String) (payload : TaskMove) (task : Task) :
    (moveReordered s task_id payload task).map Task.id =
      (listInsert (moveIndex s task_id payload) task
        (moveSiblings s task_id payload.column_id)).map Task.id := by
  unfold moveReordered
  exact reindexFrom_map_id _ _

theorem moveReordered_ids_nodup (s : Store) (task_id : String) (payload : TaskMove) (task : Task)
    (hwf : (s.tasks.map Task.id).Nodup)
    (hfind : s.tasks.find? (fun t => t.id == task_id) = some task) :
    ((moveReordered s task_id payload task).map Task.id).Nodup := by
  rw [moveReordered_ids]
  have hperm := (listInsert_perm (moveIndex s task_id payload) task
    (moveSiblings s task_id payload.column_id)).map Task.id
  refine hperm.nodup_iff.2 ?_
  rw [List.map_cons, List.nodup_cons]
  constructor
  · intro hmem
    rcases List.mem_map.1 hmem with ⟨u, hu, hid⟩
    rcases mem_moveSiblings s task_id payload.column_id u hu with ⟨_, _, hne⟩
    exact hne (hid.symm ▸ task_id_of_find s task_id task hfind)
  · exact moveSiblings_ids_nodup s task_id payload.column_id hwf

theorem moveReordered_ids_sub (s : Store) (task_id : String) (payload : TaskMove) (task : Task)
    (hfind : s.tasks.find? (fun t => t.id == task_id) = some task) :
    ∀ r ∈ moveReordered s task_id payload task, r.id ∈ s.tasks.map Task.id := by
  intro r hr
  have : r.id ∈ (moveReordered s task_id payload task).map Task.id :=
    List.mem_map_of_mem Task.id hr
  rw [moveReordered_ids] at this
  have hperm := (listInsert_perm (moveIndex s task_id payload) task
    (moveSiblings s task_id payload.column_id)).map Task.id
  rcases List.mem_map.1 (hperm.mem_iff.1 this) with ⟨u, hu, hid⟩
  rcases List.mem_cons.1 hu with heq | hu
  · exact (heq ▸ hid) ▸ List.mem_map_of_mem Task.id (task_mem_of_find s task_id task hfind)
  · exact hid ▸ List.mem_map_of_mem Task.id (mem_moveSiblings s task_id payload.column_id u hu).1

theorem map_id_applyUpds_map (rs l : List Task) :
    (l.map (applyUpds Task.id rs)).map Task.id = l.map Task.id := by
  rw [List.map_map]
  apply List.map_congr_left
  intro t _
  exact key_applyUpds Task.id rs t

theorem moveF_id (s : Store) (task_id : String) (payload : TaskMove) (task t : Task)
    (hfind : s.tasks.find? (fun u => u.id == task_id) = some task) :
    (moveF s task_id payload task t).id = t.id := by
  unfold moveF
  by_cases h : t.id = task_id
  · rw [if_pos (by simp [h])]
    exact (task_id_of_find s task_id task hfind).trans h.symm
  · rw [if_neg (by simp [h])]
    exact key_applyUpds Task.id _ t

theorem move_tasks_eq (s : Store) (task_id : String) (payload : TaskMove) (task : Task)
    (hwf : (s.tasks.map Task.id).Nodup)
    (hfind : s.tasks.find? (fun u => u.id == task_id) = some task)
    (hcol : s.columns.any (fun c => c.id == payload.column_id) = true) :
    (move_task s task_id payload).2.tasks =
      s.tasks.map (moveF s task_id payload task) := by
  unfold move_task
  rw [hfind]
  simp only [hcol, if_true]
  have h1 : (moveReordered s task_id payload task).foldl (dictUpd Task.id) s.tasks =
      s.tasks.map (applyUpds Task.id (moveReordered s task_id payload task)) :=
    foldl_dictUpd_eq_map Task.id _ s.tasks
      (moveReordered_ids_nodup s task_id payload task hwf hfind)
      (moveReordered_ids_sub s task_id payload task hfind)
  rw [h1]
  have h2 : (movedTask s task_id payload task).id ∈
      (s.tasks.map (applyUpds Task.id (moveReordered s task_id payload task))).map Task.id := by
    rw [map_id_applyUpds_map]
    have hid0 : (movedTask s task_id payload task).id = task.id := rfl
    rw [hid0]
    exact List.mem_map_of_mem Task.id (task_mem_of_find s task_id task hfind)
  rw [dictUpd_present Task.id _ _ h2, List.map_map]
  apply List.map_congr_left
  intro t _
  show (if (applyUpds Task.id (moveReordered s task_id payload task) t).id ==
      (movedTask s task_id payload task).id then movedTask s task_id payload task
    else applyUpds Task.id (moveReordered s task_id payload task) t) =
    moveF s task_id payload task t
  have hid : (applyUpds Task.id (moveReordered s task_id payload task) t).id = t.id :=
    key_applyUpds Task.id _ t
  have hmtid : (movedTask s task_id payload task).id = task_id :=
    task_id_of_find s task_id task hfind
  unfold moveF
  by_cases h : t.id = task_id
  · rw [if_pos (by simp [hid, hmtid, h]), if_pos (by simp [h])]
  · rw [if_neg (by simp [hid, hmtid, h]), if_neg (by simp [h])]

theorem move_tasks_map_id (s : Store) (task_id : String) (payload : TaskMove) (task : Task)
    (hwf : (s.tasks.map Task.id).Nodup)
    (hfind : s.tasks.find? (fun u => u.id == task_id) = some task)
    (hcol : s.columns.any (fun c => c.id == payload.column_id) = true) :
    ((move_task s task_id payload).2.tasks).map Task.id = s.tasks.map Task.id := by
  rw [move_tasks_eq s task_id payload task hwf hfind hcol, List.map_map]
  apply List.map_congr_left
  intro t _
  exact moveF_id s task_id payload task t hfind

theorem moveF_untouched (s : Store) (task_id : String) (payload : TaskMove) (task t : Task)
    (h1 : t.id ≠ task_id)
    (h2 : t.id ∉ (moveReordered s task_id payload task).map Task.id) :
    moveF s task_id payload task t = t := by
  unfold moveF
  rw [if_neg (by simp [h1])]
  unfold applyUpds
  have hnone : (moveReordered s task_id payload task).find? (fun r => r.id == t.id) = none := by
    rw [List.find?_eq_none]
    intro r hr
    simp only [beq_iff_eq]
    intro hc
    exact h2 (hc ▸ List.mem_map_of_mem Task.id hr)
  rw [hnone]
  rfl

theorem notin_reordered_of_other_col (s : Store) (task_id : String) (payload : TaskMove)
    (task t : Task)
    (hwf : (s.tasks.map Task.id).Nodup)
    (hfind : s.tasks.find? (fun u => u.id == task_id) = some task)
    (hmem : t ∈ s.tasks) (hne : t.id ≠ task_id) (hcolt : t.column_id ≠ payload.column_id) :
    t.id ∉ (moveReordered s task_id payload task).map Task.id := by
  intro hin
  rw [moveReordered_ids] at hin
  have hperm := (listInsert_perm (moveIndex s task_id payload) task
    (moveSiblings s task_id payload.column_id)).map Task.id
  rcases List.mem_map.1 (hperm.mem_iff.1 hin) with ⟨u, hu, hid⟩
  rcases List.mem_cons.1 hu with heq | hu
  · apply hne
    rw [← hid, heq]
    exact task_id_of_find s task_id task hfind
  · rcases mem_moveSiblings s task_id payload.column_id u hu with ⟨humem, hucol, _⟩
    have : u = t := List.inj_on_of_nodup_map hwf humem hmem hid
    exact hcolt (this ▸ hucol)

theorem moveF_dest (s : Store) (task_id : String) (payload : TaskMove) (task t : Task)
    (hwf : (s.tasks.map Task.id).Nodup)
    (hfind : s.tasks.find? (fun u => u.id == task_id) = some task)
    (hmem : t ∈ s.tasks) (hne : t.id ≠ task_id) (hcolt : t.column_id = payload.column_id) :
    ∃ j : Nat, { t with order := (j : Int) } ∈ moveReordered s task_id payload task ∧
      moveF s task_id payload task t = { t with order := (j : Int) } := by
  have hsib : t ∈ moveSiblings s task_id payload.column_id :=
    moveSiblings_of_mem s task_id payload.column_id t hmem hcolt hne
  have hplaced : t ∈ listInsert (moveIndex s task_id payload) task
      (moveSiblings s task_id payload.column_id) :=
    (listInsert_perm _ _ _).mem_iff.2 (List.mem_cons_of_mem task hsib)
  rcases reindexFrom_mem_of_mem 0 _ t hplaced with ⟨j, hj⟩
  have hj' : { t with order := (j : Int) } ∈ moveReordered s task_id payload task := hj
  refine ⟨j, hj', ?_⟩
  unfold moveF
  rw [if_neg (by simp [hne])]
  unfold applyUpds
  cases hf : (moveReordered s task_id payload task).find? (fun r => r.id == t.id) with
  | none =>
    exfalso
    have := List.find?_eq_none.1 hf _ hj'
    simp at this
  | some r =>
    have hrmem := List.mem_of_find?_eq_some hf
    have hrid : r.id = t.id := by simpa using List.find?_some hf
    have heq : r = { t with order := (j : Int) } :=
      List.inj_on_of_nodup_map (moveReordered_ids_nodup s task_id payload task hwf hfind)
        hrmem hj' (by simpa using hrid)
    rw [heq]
    rfl

theorem moveF_self (s : Store) (task_id : String) (payload : TaskMove) (task : Task)
    (hfind : s.tasks.find? (fun u => u.id == task_id) = some task) :
    moveF s task_id payload task task = movedTask s task_id payload task := by
  unfold moveF
  rw [if_pos (by simp [task_id_of_find s task_id task hfind])]

theorem rtask_mem_moveReordered (s : Store) (task_id : String) (payload : TaskMove) (task : Task) :
    { task with order := ((moveIndex s task_id payload : Nat) : Int) } ∈
      moveReordered s task_id payload task := by
  have h := reindexFrom_listInsert_self task 0 (moveIndex s task_id payload)
    (moveSiblings s task_id payload.column_id) (moveIndex_le s task_id payload)
  simpa using h

theorem moveReordered_col (s : Store) (task_id : String) (payload : TaskMove) (task r : Task)
    (hfind : s.tasks.find? (fun u => u.id == task_id) = some task)
    (hr : r ∈ moveReordered s task_id payload task) (hne : r.id ≠ task_id) :
    r.column_id = payload.column_id := by
  rcases mem_reindexFrom 0 _ r hr with ⟨p, hp, j, hj⟩
  have hpplaced := (listInsert_perm (moveIndex s task_id payload) task
    (moveSiblings s task_id payload.column_id)).mem_iff.1 hp
  rcases List.mem_cons.1 hpplaced with heq | hpsib
  · exfalso
    apply hne
    rw [hj]
    show p.id = task_id
    rw [heq]
    exact task_id_of_find s task_id task hfind
  · rw [hj]
    show p.column_id = _
    exact (mem_moveSiblings s task_id payload.column_id p hpsib).2.1

theorem move_projects_eq (s : Store) (task_id : String) (payload : TaskMove) (task : Task)
    (hfind : s.tasks.find? (fun u => u.id == task_id) = some task)
    (hcol : s.columns.any (fun c => c.id == payload.column_id) = true) :
    (move_task s task_id payload).2.projects = s.projects := by
  unfold move_task
  rw [hfind]
  simp only [hcol, if_true]

theorem move_columns_eq (s : Store) (task_id : String) (payload : TaskMove) (task : Task)
    (hfind : s.tasks.find? (fun u => u.id == task_id) = some task)
    (hcol : s.columns.any (fun c => c.id == payload.column_id) = true) :
    (move_task s task_id payload).2.columns = s.columns := by
  unfold move_task
  rw [hfind]
  simp only [hcol, if_true]

theorem move_result_ok (s : Store) (task_id : String) (payload : TaskMove) (task : Task)
    (hfind : s.tasks.find? (fun u => u.id == task_id) = some task)
    (hcol : s.columns.any (fun c => c.id == payload.column_id) = true) :
    (move_task s task_id payload).1 = .ok (movedTask s task_id payload task) := by
  unfold move_task
  rw [hfind]
  simp only [hcol, if_true]

theorem moveReordered_src (s : Store) (task_id : String) (payload : TaskMove) (task r : Task)
    (hfind : s.tasks.find? (fun u => u.id == task_id) = some task)
    (hr : r ∈ moveReordered s task_id payload task) (hne : r.id ≠ task_id) :
    ∃ t ∈ s.tasks, ∃ j : Nat, r = { t with order := (j : Int) } ∧
      t.column_id = payload.column_id := by
  rcases mem_reindexFrom 0 _ r hr with ⟨p, hp, j, hj⟩
  have hpplaced := (listInsert_perm (moveIndex s task_id payload) task
    (moveSiblings s task_id payload.column_id)).mem_iff.1 hp
  rcases List.mem_cons.1 hpplaced with heq | hpsib
  · exfalso
    apply hne
    rw [hj]
    show p.id = task_id
    rw [heq]
    exact task_id_of_find s task_id task hfind
  · rcases mem_moveSiblings s task_id payload.column_id p hpsib with ⟨hpmem, hpcol, _⟩
    exact ⟨p, hpmem, j, hj, hpcol⟩

theorem moveFinal_map_id (s : Store) (task_id : String) (payload : TaskMove) (task : Task) :
    (moveFinal s task_id payload task).map Task.id =
      (moveReordered s task_id payload task).map Task.id := by
  unfold moveFinal
  rw [List.map_map]
  apply List.map_congr_left
  intro r _
  simp only [Function.comp_apply]
  by_cases h : r.id = task_id
  · simp [h]
  · simp [h]

theorem moveFinal_ids_nodup (s : Store) (task_id : String) (payload : TaskMove) (task : Task)
    (hwf : (s.tasks.map Task.id).Nodup)
    (hfind : s.tasks.find? (fun u => u.id == task_id) = some task) :
    ((moveFinal s task_id payload task).map Task.id).Nodup := by
  rw [moveFinal_map_id]
  exact moveReordered_ids_nodup s task_id payload task hwf hfind

theorem move_dest_perm (s : Store) (task_id : String) (payload : TaskMove) (task : Task)
    (hwf : WF s)
    (hfind : s.tasks.find? (fun u => u.id == task_id) = some task)
    (hcol : s.columns.any (fun c => c.id == payload.column_id) = true) :
    List.Perm (tasksIn (move_task s task_id payload).2 payload.column_id)
      (moveFinal s task_id payload task) := by
  obtain ⟨_, _, hwft⟩ := hwf
  have hids' := move_tasks_map_id s task_id payload task hwft hfind hcol
  have hnd1 : (tasksIn (move_task s task_id payload).2 payload.column_id).Nodup := by
    have hnd : ((move_task s task_id payload).2.tasks).Nodup :=
      List.Nodup.of_map Task.id (hids' ▸ hwft)
    exact (List.filter_sublist _).nodup hnd
  have hnd2 : (moveFinal s task_id payload task).Nodup :=
    List.Nodup.of_map Task.id (moveFinal_ids_nodup s task_id payload task hwft hfind)
  rw [List.perm_ext_iff_of_nodup hnd1 hnd2]
  intro u
  constructor
  · intro hu
    rcases List.mem_filter.1 hu with ⟨humem, hucol⟩
    simp only [beq_iff_eq] at hucol
    rw [move_tasks_eq s task_id payload task hwft hfind hcol] at humem
    rcases List.mem_map.1 humem with ⟨t, htmem, hFt⟩
    by_cases hid : t.id = task_id
    · have hteq : t = task :=
        List.inj_on_of_nodup_map hwft htmem (task_mem_of_find s task_id task hfind)
          (by rw [hid, task_id_of_find s task_id task hfind])
      rw [hteq, moveF_self s task_id payload task hfind] at hFt
      unfold moveFinal
      apply List.mem_map.2
      refine ⟨{ task with order := ((moveIndex s task_id payload : Nat) : Int) },
        rtask_mem_moveReordered s task_id payload task, ?_⟩
      rw [if_pos (by simp [task_id_of_find s task_id task hfind])]
      rw [← hFt]
      rfl
    · by_cases hcolt : t.column_id = payload.column_id
      · rcases moveF_dest s task_id payload task t hwft hfind htmem hid hcolt with ⟨j, hjmem, hjF⟩
        unfold moveFinal
        apply List.mem_map.2
        refine ⟨{ t with order := (j : Int) }, hjmem, ?_⟩
        rw [if_neg (by simpa using hid)]
        rw [← hFt, hjF]
      · have hnotin := notin_reordered_of_other_col s task_id payload task t hwft hfind
          htmem hid hcolt
        rw [moveF_untouched s task_id payload task t hid hnotin] at hFt
        exact absurd (hFt ▸ hucol) hcolt
  · intro hu
    unfold moveFinal at hu
    rcases List.mem_map.1 hu with ⟨r, hrmem, hru⟩
    by_cases hrid : r.id = task_id
    · have hreq : r = { task with order := ((moveIndex s task_id payload : Nat) : Int) } :=
        List.inj_on_of_nodup_map (moveReordered_ids_nodup s task_id payload task hwft hfind)
          hrmem (rtask_mem_moveReordered s task_id payload task)
          (by simpa [task_id_of_find s task_id task hfind] using hrid)
      rw [if_pos (by simpa using hrid), hreq] at hru
      apply List.mem_filter.2
      constructor
      · rw [move_tasks_eq s task_id payload task hwft hfind hcol]
        apply List.mem_map.2
        refine ⟨task, task_mem_of_find s task_id task hfind, ?_⟩
        rw [moveF_self s task_id payload task hfind, ← hru]
        rfl
      · rw [← hru]
        simp
    · rw [if_neg (by simpa using hrid)] at hru
      rcases moveReordered_src s task_id payload task r hfind hrmem hrid with
        ⟨t, htmem, j, hrj, htcol⟩
      have htne : t.id ≠ task_id := by
        intro hc
        apply hrid
        rw [hrj]
        exact hc
      rcases moveF_dest s task_id payload task t hwft hfind htmem htne htcol with
        ⟨j2, hj2mem, hj2F⟩
      have hreq : { t with order := (j2 : Int) } = r :=
        List.inj_on_of_nodup_map (moveReordered_ids_nodup s task_id payload task hwft hfind)
          hj2mem hrmem (by rw [hrj])
      apply List.mem_filter.2
      constructor
      · rw [move_tasks_eq s task_id payload task hwft hfind hcol]
        exact List.mem_map.2 ⟨t, htmem, by rw [hj2F, hreq, hru]⟩
      · rw [← hru, hrj]
        simpa using htcol

theorem move_dest_dense (s : Store) (task_id : String) (payload : TaskMove) (task : Task)
    (hwf : WF s)
    (hfind : s.tasks.find? (fun u => u.id == task_id) = some task)
    (hcol : s.columns.any (fun c => c.id == payload.column_id) = true) :
    denseColumn (move_task s task_id payload).2 payload.column_id := by
  have hperm := move_dest_perm s task_id payload task hwf hfind hcol
  have h2 : (moveFinal s task_id payload task).map Task.order =
      (moveReordered s task_id payload task).map Task.order := by
    unfold moveFinal
    rw [List.map_map]
    apply List.map_congr_left
    intro r _
    by_cases h : r.id = task_id
    · simp [h]
    · simp [h]
  have h3 : (moveReordered s task_id payload task).map Task.order =
      (List.range' 0 (listInsert (moveIndex s task_id payload) task
        (moveSiblings s task_id payload.column_id)).length).map (fun k : Nat => (k : Int)) :=
    reindexFrom_map_order 0 _
  have h4 : (moveFinal s task_id payload task).length =
      (listInsert (moveIndex s task_id payload) task
        (moveSiblings s task_id payload.column_id)).length := by
    unfold moveFinal moveReordered
    rw [List.length_map, reindexFrom_length]
  unfold denseColumn
  rw [hperm.length_eq, h4]
  refine (hperm.map Task.order).trans ?_
  rw [h2, h3, List.range_eq_range']

theorem move_untouched_mem (s : Store) (task_id : String) (payload : TaskMove) (task t : Task)
    (hwf : WF s)
    (hfind : s.tasks.find? (fun u => u.id == task_id) = some task)
    (hcol : s.columns.any (fun c => c.id == payload.column_id) = true)
    (htmem : t ∈ s.tasks) (hne : t.id ≠ task_id) (hcolt : t.column_id ≠ payload.column_id) :
    t ∈ (move_task s task_id payload).2.tasks := by
  obtain ⟨_, _, hwft⟩ := hwf
  rw [move_tasks_eq s task_id payload task hwft hfind hcol]
  refine List.mem_map.2 ⟨t, htmem, ?_⟩
  exact moveF_untouched s task_id payload task t hne
    (notin_reordered_of_other_col s task_id payload task t hwft hfind htmem hne hcolt)

theorem move_dest_fields (s : Store) (task_id : String) (payload : TaskMove) (task t : Task)
    (hwf : WF s)
    (hfind : s.tasks.find? (fun u => u.id == task_id) = some task)
    (hcol : s.columns.any (fun c => c.id == payload.column_id) = true)
    (htmem : t ∈ s.tasks) (hne : t.id ≠ task_id) (hcolt : t.column_id = payload.column_id) :
    ∃ u ∈ (move_task s task_id payload).2.tasks, u.id = t.id ∧ u.project_id = t.project_id ∧
      u.column_id = t.column_id ∧ u.title = t.title ∧ u.description = t.description := by
  obtain ⟨_, _, hwft⟩ := hwf
  rcases moveF_dest s task_id payload task t hwft hfind htmem hne hcolt with ⟨j, _, hjF⟩
  refine ⟨{ t with order := (j : Int) }, ?_, rfl, rfl, rfl, rfl, rfl⟩
  rw [move_tasks_eq s task_id payload task hwft hfind hcol]
  exact List.mem_map.2 ⟨t, htmem, hjF⟩

theorem filter_map_congr {α : Type} (F : α → α) (p q : α → Bool) (l : List α)
    (h : ∀ t ∈ l, (q t = true → F t = t ∧ p t = true) ∧ (q t = false → p (F t) = false)) :
    (l.map F).filter p = l.filter q := by
  induction l with
  | nil => rfl
  | cons t ts ih =>
    rcases h t (List.mem_cons_self t ts) with ⟨h1, h2⟩
    have ih' := ih (fun u hu => h u (List.mem_cons_of_mem t hu))
    rw [List.map_cons]
    cases hq : q t with
    | true =>
      rcases h1 hq with ⟨hF, hp⟩
      rw [hF, List.filter_cons_of_pos hp, List.filter_cons_of_pos hq, ih']
    | false =>
      rw [List.filter_cons_of_neg (by simp [h2 hq]), List.filter_cons_of_neg (by simp [hq]), ih']

theorem move_source_tasks (s : Store) (task_id : String) (payload : TaskMove) (task : Task)
    (hwf : WF s)
    (hfind : s.tasks.find? (fun u => u.id == task_id) = some task)
    (hcol : s.columns.any (fun c => c.id == payload.column_id) = true)
    (hsrc : task.column_id ≠ payload.column_id) :
    tasksIn (move_task s task_id payload).2 task.column_id =
      s.tasks.filter (fun u => u.column_id == task.column_id && u.id != task_id) := by
  obtain ⟨_, _, hwft⟩ := hwf
  unfold tasksIn
  rw [move_tasks_eq s task_id payload task hwft hfind hcol]
  apply filter_map_congr
  intro t htmem
  constructor
  · intro hq
    simp only [Bool.and_eq_true, beq_iff_eq, bne_iff_ne] at hq
    obtain ⟨htcol, htne⟩ := hq
    have hnotin := notin_reordered_of_other_col s task_id payload task t hwft hfind htmem htne
      (by rw [htcol]; exact hsrc)
    exact ⟨moveF_untouched s task_id payload task t htne hnotin, by simp [htcol]⟩
  · intro hq
    by_cases hid : t.id = task_id
    · have hteq : t = task :=
        List.inj_on_of_nodup_map hwft htmem (task_mem_of_find s task_id task hfind)
          (by rw [hid, task_id_of_find s task_id task hfind])
      rw [hteq, moveF_self s task_id payload task hfind]
      show (payload.column_id == task.column_id) = false
      simpa using Ne.symm hsrc
    · have htcol : t.column_id ≠ task.column_id := by
        intro hc
        simp [hc, hid] at hq
      by_cases hdest : t.column_id = payload.column_id
      · rcases moveF_dest s task_id payload task t hwft hfind htmem hid hdest with ⟨j, _, hjF⟩
        rw [hjF]
        show (t.column_id == task.column_id) = false
        simpa using htcol
      · rw [moveF_untouched s task_id payload task t hid
          (notin_reordered_of_other_col s task_id payload task t hwft hfind htmem hid hdest)]
        simpa using htcol

theorem pyMax_of_perm_range (l : List Int) (n : Nat)
    (h : List.Perm l ((List.range n).map (fun k : Nat => (k : Int)))) :
    pyMax (-1) l = (n : Int) - 1 := by
  cases n with
  | zero =>
    have hl : l = [] := List.Perm.eq_nil (by simpa using h)
    simp [hl, pyMax]
  | succ m =>
    have hub : ∀ x ∈ l, x ≤ (m : Int) := by
      intro x hx
      rcases List.mem_map.1 (h.mem_iff.1 hx) with ⟨k, hk, rfl⟩
      have := List.mem_range.1 hk
      omega
    have hmem : ((m : Nat) : Int) ∈ l := by
      apply h.mem_iff.2
      exact List.mem_map_of_mem (fun k : Nat => (k : Int)) (List.mem_range.2 (Nat.lt_succ_self m))
    have h1 : (m : Int) ≤ pyMax (-1) l := le_pyMax _ _ _ hmem
    have h2 : pyMax (-1) l ≤ (m : Int) := by
      rcases pyMax_mem (-1) l with hc | hc
      · rw [hc]; omega
      · exact hub _ hc
    omega

/-! ### Failure shapes and preservation lemmas -/

theorem move_task_fail_find (s : Store) (task_id : String) (payload : TaskMove)
    (hfind : s.tasks.find? (fun u => u.id == task_id) = none) :
    move_task s task_id payload = (.error (.notFound "Task not found"), s) := by
  unfold move_task
  rw [hfind]

theorem move_task_fail_col (s : Store) (task_id : String) (payload : TaskMove) (task : Task)
    (hfind : s.tasks.find? (fun u => u.id == task_id) = some task)
    (hcol : s.columns.any (fun c => c.id == payload.column_id) = false) :
    move_task s task_id payload = (.error (.notFound "Target column not found"), s) := by
  unfold move_task
  rw [hfind]
  simp [hcol]

theorem create_task_fail_proj (s : Store) (pid : String) (payload : TaskCreate) (new_id : String)
    (hp : s.projects.any (fun p => p.id == pid) = false) :
    create_task s pid payload new_id = (.error (.notFound "Project not found"), s) := by
  unfold create_task
  simp [hp]

theorem create_task_fail_col (s : Store) (pid : String) (payload : TaskCreate) (new_id : String)
    (hp : s.projects.any (fun p => p.id == pid) = true)
    (hc : s.columns.any (fun c => c.id == payload.column_id) = false) :
    create_task s pid payload new_id = (.error (.notFound "Column not found"), s) := by
  unfold create_task
  simp [hp, hc]

theorem create_task_ok (s : Store) (pid : String) (payload : TaskCreate) (new_id : String)
    (hp : s.projects.any (fun p => p.id == pid) = true)
    (hc : s.columns.any (fun c => c.id == payload.column_id) = true) :
    create_task s pid payload new_id =
      (.ok (newTaskOf s pid payload new_id),
        { s with tasks := dictUpd Task.id s.tasks (newTaskOf s pid payload new_id) }) := by
  unfold create_task
  simp [hp, hc]

theorem create_task_tasks_append (s : Store) (pid : String) (payload : TaskCreate)
    (new_id : String)
    (hp : s.projects.any (fun p => p.id == pid) = true)
    (hc : s.columns.any (fun c => c.id == payload.column_id) = true)
    (hfresh : new_id ∉ s.tasks.map Task.id) :
    (create_task s pid payload new_id).2.tasks = s.tasks ++ [newTaskOf s pid payload new_id] := by
  rw [create_task_ok s pid payload new_id hp hc]
  exact dictUpd_fresh Task.id s.tasks _ hfresh

theorem move_task_wf (s : Store) (task_id : String) (payload : TaskMove)
    (hwf : WF s) : WF (move_task s task_id payload).2 := by
  cases hfind : s.tasks.find? (fun u => u.id == task_id) with
  | none => rw [move_task_fail_find s task_id payload hfind]; exact hwf
  | some task =>
    cases hcol : s.columns.any (fun c => c.id == payload.column_id) with
    | false => rw [move_task_fail_col s task_id payload task hfind hcol]; exact hwf
    | true =>
      obtain ⟨hwfp, hwfc, hwft⟩ := hwf
      refine ⟨?_, ?_, ?_⟩
      · rw [move_projects_eq s task_id payload task hfind hcol]; exact hwfp
      · rw [move_columns_eq s task_id payload task hfind hcol]; exact hwfc
      · rw [move_tasks_map_id s task_id payload task hwft hfind hcol]; exact hwft

theorem create_task_wf (s : Store) (pid : String) (payload : TaskCreate) (new_id : String)
    (hwf : WF s) (hfresh : new_id ∉ s.tasks.map Task.id) :
    WF (create_task s pid payload new_id).2 := by
  cases hp : s.projects.any (fun p => p.id == pid) with
  | false => rw [create_task_fail_proj s pid payload new_id hp]; exact hwf
  | true =>
    cases hc : s.columns.any (fun c => c.id == payload.column_id) with
    | false => rw [create_task_fail_col s pid payload new_id hp hc]; exact hwf
    | true =>
      obtain ⟨hwfp, hwfc, hwft⟩ := hwf
      rw [create_task_ok s pid payload new_id hp hc]
      refine ⟨hwfp, hwfc, ?_⟩
      rw [dictUpd_fresh Task.id s.tasks _ hfresh, List.map_append]
      rw [List.nodup_append]
      exact ⟨hwft, List.nodup_singleton _, by simpa using hfresh⟩

theorem tasksIn_create (s : Store) (pid : String) (payload : TaskCreate) (new_id cid : String)
    (hp : s.projects.any (fun p => p.id == pid) = true)
    (hc : s.columns.any (fun c => c.id == payload.column_id) = true)
    (hfresh : new_id ∉ s.tasks.map Task.id)
    (hcid : payload.column_id = cid) :
    tasksIn (create_task s pid payload new_id).2 cid =
      tasksIn s cid ++ [newTaskOf s pid payload new_id] := by
  unfold tasksIn
  rw [create_task_tasks_append s pid payload new_id hp hc hfresh, List.filter_append]
  congr 1
  have : (newTaskOf s pid payload new_id).column_id = cid := hcid
  simp [this]

theorem create_task_dense (s : Store) (pid : String) (payload : TaskCreate)
    (new_id cid : String)
    (hfresh : new_id ∉ s.tasks.map Task.id)
    (hcid : payload.column_id = cid)
    (hdense : denseColumn s cid) :
    denseColumn (create_task s pid payload new_id).2 cid := by
  cases hp : s.projects.any (fun p => p.id == pid) with
  | false => rw [create_task_fail_proj s pid payload new_id hp]; exact hdense
  | true =>
    cases hc : s.columns.any (fun c => c.id == payload.column_id) with
    | false => rw [create_task_fail_col s pid payload new_id hp hc]; exact hdense
    | true =>
      have hmax : pyMax (-1) ((tasksIn s cid).map Task.order) =
          ((tasksIn s cid).length : Int) - 1 :=
        pyMax_of_perm_range _ _ hdense
      have horder : (newTaskOf s pid payload new_id).order = ((tasksIn s cid).length : Int) := by
        show pyMax (-1) ((s.tasks.filter (fun t => t.column_id == payload.column_id)).map Task.order) + 1 = _
        rw [hcid]
        show pyMax (-1) ((tasksIn s cid).map Task.order) + 1 = _
        rw [hmax]
        omega
      unfold denseColumn
      rw [tasksIn_create s pid payload new_id cid hp hc hfresh hcid]
      rw [List.map_append, List.length_append]
      simp only [List.map_cons, List.map_nil, List.length_cons, List.length_nil]
      rw [horder]
      have hr : List.range ((tasksIn s cid).length + (0 + 1)) =
          List.range (tasksIn s cid).length ++ [(tasksIn s cid).length] := by
        rw [show (tasksIn s cid).length + (0 + 1) = (tasksIn s cid).length + 1 by omega]
        exact List.range_succ _
      rw [hr, List.map_append]
      exact hdense.append_right _

theorem reach_wf_dense (cid : String) (s s' : Store) (hreach : ReachDest cid s s')
    (hwf : WF s) (hdense : denseColumn s cid) : WF s' ∧ denseColumn s' cid := by
  induction hreach with
  | refl => exact ⟨hwf, hdense⟩
  | createStep s2 pid payload new_id h hc hfresh ih =>
    obtain ⟨ihwf, ihdense⟩ := ih
    exact ⟨create_task_wf s2 pid payload new_id ihwf hfresh,
      create_task_dense s2 pid payload new_id cid hfresh hc ihdense⟩
  | moveStep s2 task_id payload h hc ih =>
    obtain ⟨ihwf, ihdense⟩ := ih
    refine ⟨move_task_wf s2 task_id payload ihwf, ?_⟩
    cases hfind : s2.tasks.find? (fun u => u.id == task_id) with
    | none => rw [move_task_fail_find s2 task_id payload hfind]; exact ihdense
    | some task =>
      cases hcol : s2.columns.any (fun c => c.id == payload.column_id) with
      | false => rw [move_task_fail_col s2 task_id payload task hfind hcol]; exact ihdense
      | true =>
        rw [← hc]
        exact move_dest_dense s2 task_id payload task ihwf hfind hcol

theorem moveSiblings_length (s : Store) (task_id cid : String) :
    (moveSiblings s task_id cid).length = siblingCount s task_id cid := by
  unfold moveSiblings siblingCount
  exact List.length_insertionSort _ _

theorem move_task_index_congr (s : Store) (task_id cid : String) (p q : Int)
    (h : moveIndex s task_id ⟨cid, p⟩ = moveIndex s task_id ⟨cid, q⟩) :
    move_task s task_id ⟨cid, p⟩ = move_task s task_id ⟨cid, q⟩ := by
  unfold move_task moveReordered movedTask
  rw [h]

/-! ### Claim theorems -/

/-- C1: for every column `cid`, after any sequence of `create_task` and
`move_task` operations each targeting `cid` as destination, starting from a
well-formed state whose column `cid` is densely ordered, the orders of the
tasks in `cid` are exactly `{0, 1, ..., count-1}` with no duplicates or
gaps. -/
theorem C1_density_invariant (cid : String) (s s' : Store)
    (hwf : WF s) (hdense : denseColumn s cid) (hreach : ReachDest cid s s') :
    denseColumn s' cid :=
  (reach_wf_dense cid s s' hreach hwf hdense).2

theorem C1_density_invariant_witness :
    denseColumn (move_task (create_task demoStore "p1" ⟨"E", none, "c1"⟩ "t5").2
      "t4" ⟨"c1", 1⟩).2 "c1" :=
  C1_density_invariant "c1" demoStore _ (by decide) (by decide)
    (ReachDest.moveStep demoStore _ "t4" ⟨"c1", 1⟩
      (ReachDest.createStep demoStore demoStore "p1" ⟨"E", none, "c1"⟩ "t5"
        (ReachDest.refl demoStore) rfl (by decide))
      rfl)

/-- C4: a successful `move_task` leaves the destination column densely
ordered `0..len-1`, and the destination column's contents are exactly the
list obtained by sorting the destination tasks except the moved one
ascending by order, inserting the moved task at the clamped index, and
reassigning each element's order to its list index (`moveFinal`); no special
case distinguishes a same-column move. -/
theorem C4_move_reindex (s : Store) (task_id : String) (payload : TaskMove) (task : Task)
    (hwf : WF s)
    (hfind : s.tasks.find? (fun u => u.id == task_id) = some task)
    (hcol : s.columns.any (fun c => c.id == payload.column_id) = true) :
    denseColumn (move_task s task_id payload).2 payload.column_id ∧
      List.Perm (tasksIn (move_task s task_id payload).2 payload.column_id)
        (moveFinal s task_id payload task) :=
  ⟨move_dest_dense s task_id payload task hwf hfind hcol,
   move_dest_perm s task_id payload task hwf hfind hcol⟩

theorem C4_move_reindex_witness :
    (denseColumn (move_task demoStore "t4" ⟨"c1", 1⟩).2 "c1" ∧
      List.Perm (tasksIn (move_task demoStore "t4" ⟨"c1", 1⟩).2 "c1")
        (moveFinal demoStore "t4" ⟨"c1", 1⟩ ⟨"t4", "p1", "c2", "T", none, 0⟩)) ∧
    moveFinal demoStore "t4" ⟨"c1", 1⟩ ⟨"t4", "p1", "c2", "T", none, 0⟩ =
      [⟨"tA", "p1", "c1", "A", none, 0⟩, ⟨"t4", "p1", "c1", "T", none, 1⟩,
       ⟨"tB", "p1", "c1", "B", none, 2⟩, ⟨"tC", "p1", "c1", "C", none, 3⟩] :=
  ⟨C4_move_reindex demoStore "t4" ⟨"c1", 1⟩ ⟨"t4", "p1", "c2", "T", none, 0⟩
    (by decide) (by decide) (by decide), by decide⟩

/-- C5: the requested move position is silently clamped into
`[0, siblingCount]`: a negative position produces exactly the same result
(value and store) as position 0, and a position above the sibling count
produces exactly the same result as the sibling count. -/
theorem C5_move_clamp (s : Store) (task_id cid : String) (p : Int) :
    (p < 0 → move_task s task_id ⟨cid, p⟩ = move_task s task_id ⟨cid, 0⟩) ∧
    ((siblingCount s task_id cid : Int) < p →
      move_task s task_id ⟨cid, p⟩ =
        move_task s task_id ⟨cid, (siblingCount s task_id cid : Int)⟩) := by
  constructor
  · intro hp
    apply move_task_index_congr
    unfold moveIndex
    simp only [moveSiblings_length]
    omega
  · intro hp
    apply move_task_index_congr
    unfold moveIndex
    simp only [moveSiblings_length]
    omega

theorem C5_move_clamp_witness :
    move_task demoStore "t4" ⟨"c1", -5⟩ = move_task demoStore "t4" ⟨"c1", 0⟩ ∧
    move_task demoStore "t4" ⟨"c1", 99⟩ = move_task demoStore "t4" ⟨"c1", 3⟩ :=
  ⟨(C5_move_clamp demoStore "t4" "c1" (-5)).1 (by decide),
   (C5_move_clamp demoStore "t4" "c1" 99).2 (by decide)⟩

/-- C6: a cross-column move leaves every task remaining in the source column
exactly as it was (same record, in particular same order, so a gap is left
at the moved task's old order); the source column afterwards holds precisely
the original source tasks other than the moved one. -/
theorem C6_move_source_gap (s : Store) (task_id : String) (payload : TaskMove) (task : Task)
    (hwf : WF s)
    (hfind : s.tasks.find? (fun u => u.id == task_id) = some task)
    (hcol : s.columns.any (fun c => c.id == payload.column_id) = true)
    (hsrc : task.column_id ≠ payload.column_id) :
    (∀ u ∈ s.tasks, u.id ≠ task_id → u.column_id ≠ payload.column_id →
      u ∈ (move_task s task_id payload).2.tasks) ∧
    tasksIn (move_task s task_id payload).2 task.column_id =
      s.tasks.filter (fun u => u.column_id == task.column_id && u.id != task_id) := by
  constructor
  · intro u hu h1 h2
    exact move_untouched_mem s task_id payload task u hwf hfind hcol hu h1 h2
  · exact move_source_tasks s task_id payload task hwf hfind hcol hsrc

theorem C6_move_source_gap_witness :
    ((∀ u ∈ gapStore.tasks, u.id ≠ "tY" → u.column_id ≠ "c2" →
      u ∈ (move_task gapStore "tY" ⟨"c2", 0⟩).2.tasks) ∧
    tasksIn (move_task gapStore "tY" ⟨"c2", 0⟩).2
        (⟨"tY", "p1", "c1", "Y", none, 1⟩ : Task).column_id =
      gapStore.tasks.filter
        (fun u => u.column_id == (⟨"tY", "p1", "c1", "Y", none, 1⟩ : Task).column_id &&
          u.id != "tY")) ∧
    tasksIn (move_task gapStore "tY" ⟨"c2", 0⟩).2 "c1" =
      [⟨"tX", "p1", "c1", "X", none, 0⟩, ⟨"tZ", "p1", "c1", "Z", none, 2⟩] :=
  ⟨C6_move_source_gap gapStore "tY" ⟨"c2", 0⟩ ⟨"tY", "p1", "c1", "Y", none, 1⟩
    (by decide) (by decide) (by decide) (by decide), by decide⟩

/-- C7: `delete_task` on a present id succeeds and removes exactly that
task: projects and columns are untouched, every other task survives as the
identical record (no reindex of the remaining siblings), and nothing else
appears. -/
theorem C7_delete_task_frame (s : Store) (task_id : String)
    (h : task_id ∈ s.tasks.map Task.id) :
    (delete_task s task_id).1 = .ok () ∧
    (delete_task s task_id).2.projects = s.projects ∧
    (delete_task s task_id).2.columns = s.columns ∧
    (delete_task s task_id).2.tasks = s.tasks.filter (fun u => u.id != task_id) ∧
    (∀ u ∈ s.tasks, u.id ≠ task_id → u ∈ (delete_task s task_id).2.tasks) ∧
    (∀ u ∈ (delete_task s task_id).2.tasks, u ∈ s.tasks ∧ u.id ≠ task_id) := by
  have hany : s.tasks.any (fun t => t.id == task_id) = true := by
    rw [List.any_eq_true]
    rcases List.mem_map.1 h with ⟨u, hu, hid⟩
    exact ⟨u, hu, by simp [hid]⟩
  unfold delete_task
  rw [if_pos hany]
  refine ⟨rfl, rfl, rfl, rfl, ?_, ?_⟩
  · intro u hu hne
    exact List.mem_filter.2 ⟨hu, by simp [hne]⟩
  · intro u hu
    rcases List.mem_filter.1 hu with ⟨h1, h2⟩
    exact ⟨h1, by simpa using h2⟩

theorem C7_delete_task_frame_witness :
    (delete_task demoStore "tB").1 = .ok () ∧
    (delete_task demoStore "tB").2.projects = demoStore.projects ∧
    (delete_task demoStore "tB").2.columns = demoStore.columns ∧
    (delete_task demoStore "tB").2.tasks = demoStore.tasks.filter (fun u => u.id != "tB") ∧
    (∀ u ∈ demoStore.tasks, u.id ≠ "tB" → u ∈ (delete_task demoStore "tB").2.tasks) ∧
    (∀ u ∈ (delete_task demoStore "tB").2.tasks, u ∈ demoStore.tasks ∧ u.id ≠ "tB") :=
  C7_delete_task_frame demoStore "tB" (by decide)

/-- C2 counterexample: `cexStore4` is reached by creating two projects,
creating task `t1` in project `p2`, and moving it into project `p1`'s column
`c1` (`move_task` does not rewrite `project_id`).  Deleting project `p1`
removes `p1` and column `c1`, yet task `t1` — which belonged to column `c1`
of `p1` — survives and is still found, contradicting the claim that all
tasks in the deleted project's columns are removed and yield NotFound. -/
theorem C2_counterexample :
    ((cexStore4.tasks.find? (fun t => t.id == "t1")).map Task.column_id = some "c1") ∧
    ((cexStore4.columns.find? (fun c => c.id == "c1")).map Column.project_id = some "p1") ∧
    (delete_project cexStore4 "p1").1 = .ok () ∧
    ("c1" ∉ (delete_project cexStore4 "p1").2.columns.map Column.id) ∧
    ((delete_project cexStore4 "p1").2.tasks.find? (fun t => t.id == "t1")).isSome = true ∧
    (delete_task (delete_project cexStore4 "p1").2 "t1").1 = .ok () :=
  ⟨rfl, rfl, rfl, by decide, rfl, rfl⟩

/-- C2 amended: deleting a present project `pid` succeeds and removes the
project, every column whose `project_id` is `pid`, and every task whose
denormalized `project_id` field is `pid`; all their former ids afterwards
yield NotFound.  Tasks are selected by their own `project_id`, not by
membership in the deleted columns, so a task sitting in one of `pid`'s
columns after a cross-project move survives (see the counterexample), and
every task whose `project_id` differs survives unchanged. -/
theorem C2_cascade_by_project_id (s : Store) (pid : String)
    (hwf : WF s) (hp : pid ∈ s.projects.map Project.id) :
    (delete_project s pid).1 = .ok () ∧
    (get_project (delete_project s pid).2 pid).1 = .error (.notFound "Project not found") ∧
    (∀ c ∈ s.columns, c.project_id = pid →
      c.id ∉ (delete_project s pid).2.columns.map Column.id) ∧
    (∀ t ∈ s.tasks, t.project_id = pid →
      (delete_task (delete_project s pid).2 t.id).1 = .error (.notFound "Task not found")) ∧
    (∀ t ∈ s.tasks, t.project_id ≠ pid → t ∈ (delete_project s pid).2.tasks) := by
  obtain ⟨hwfp, hwfc, hwft⟩ := hwf
  have hany : s.projects.any (fun p => p.id == pid) = true := by
    rw [List.any_eq_true]
    rcases List.mem_map.1 hp with ⟨u, hu, hid⟩
    exact ⟨u, hu, by simp [hid]⟩
  unfold delete_project
  rw [if_pos hany]
  refine ⟨rfl, ?_, ?_, ?_, ?_⟩
  · unfold get_project
    have hnone : (s.projects.filter (fun p => p.id != pid)).find? (fun p => p.id == pid) = none := by
      rw [List.find?_eq_none]
      intro p hpmem
      rcases List.mem_filter.1 hpmem with ⟨_, hne⟩
      simpa using (by simpa using hne : p.id ≠ pid)
    rw [hnone]
  · intro c hc hcp
    intro hmem
    rcases List.mem_map.1 hmem with ⟨c', hc', hid⟩
    rcases List.mem_filter.1 hc' with ⟨hc'mem, hc'ne⟩
    have : c' = c := List.inj_on_of_nodup_map hwfc hc'mem hc hid
    rw [this] at hc'ne
    simp [hcp] at hc'ne
  · intro t ht htp
    unfold delete_task
    have hnone : (s.tasks.filter (fun u => u.project_id != pid)).any
        (fun u => u.id == t.id) = false := by
      rw [← Bool.not_eq_true, List.any_eq_true]
      rintro ⟨u, humem, huid⟩
      rcases List.mem_filter.1 humem with ⟨humem', hune⟩
      simp only [beq_iff_eq] at huid
      have : u = t := List.inj_on_of_nodup_map hwft humem' ht huid
      rw [this] at hune
      simp [htp] at hune
    rw [if_neg (by simp [hnone])]
  · intro t ht htp
    exact List.mem_filter.2 ⟨ht, by simp [htp]⟩

theorem C2_cascade_by_project_id_witness :
    (delete_project cexStore4 "p1").1 = .ok () ∧
    (get_project (delete_project cexStore4 "p1").2 "p1").1 =
      .error (.notFound "Project not found") ∧
    (∀ c ∈ cexStore4.columns, c.project_id = "p1" →
      c.id ∉ (delete_project cexStore4 "p1").2.columns.map Column.id) ∧
    (∀ t ∈ cexStore4.tasks, t.project_id = "p1" →
      (delete_task (delete_project cexStore4 "p1").2 t.id).1 =
        .error (.notFound "Task not found")) ∧
    (∀ t ∈ cexStore4.tasks, t.project_id ≠ "p1" →
      t ∈ (delete_project cexStore4 "p1").2.tasks) :=
  C2_cascade_by_project_id cexStore4 "p1" (by decide) (by decide)

/-- C3 counterexample: in the reachable state `holeStore3` column `c1` holds
a single task whose order is 1 (a gap left by `delete_task`), so the group
has size 1; appending a task to `c1` assigns order 2 — `max + 1` — not the
group size 1 the claim promises. -/
theorem C3_counterexample :
    (tasksIn holeStore3 "c1").length = 1 ∧
    (create_task holeStore3 "p1" ⟨"C", none, "c1"⟩ "h3").1 =
      .ok ⟨"h3", "p1", "c1", "C", none, 2⟩ ∧
    ((2 : Int) ≠ ((tasksIn holeStore3 "c1").length : Int)) :=
  ⟨rfl, rfl, by decide⟩

/-- C3 amended: appending assigns order `max(existing siblings' orders,
default -1) + 1`, which is strictly greater than every current sibling's
order and equals the group size exactly when the group is densely ordered;
no existing sibling is mutated — the store after the append is exactly the
old store with the new entity appended.  This holds for `create_task` (task
groups can be non-dense after deletes or cross-column moves) and for
`create_column` alike. -/
theorem C3_append_max_plus_one (s : Store) (pid : String) (tc : TaskCreate)
    (cc : ColumnCreate) (tid cid2 : String)
    (hp : s.projects.any (fun p => p.id == pid) = true)
    (hc : s.columns.any (fun c => c.id == tc.column_id) = true)
    (hfresh : tid ∉ s.tasks.map Task.id)
    (hfreshc : cid2 ∉ s.columns.map Column.id) :
    ((create_task s pid tc tid).1 = .ok (newTaskOf s pid tc tid) ∧
     (newTaskOf s pid tc tid).order =
       pyMax (-1) ((tasksIn s tc.column_id).map Task.order) + 1 ∧
     (∀ u ∈ tasksIn s tc.column_id, u.order < (newTaskOf s pid tc tid).order) ∧
     (create_task s pid tc tid).2.tasks = s.tasks ++ [newTaskOf s pid tc tid] ∧
     (denseColumn s tc.column_id →
       (newTaskOf s pid tc tid).order = ((tasksIn s tc.column_id).length : Int))) ∧
    ((create_column s pid cc cid2).1 = .ok (newColumnOf s pid cc cid2) ∧
     (newColumnOf s pid cc cid2).order =
       pyMax (-1) ((columnsOf s pid).map Column.order) + 1 ∧
     (∀ c ∈ columnsOf s pid, c.order < (newColumnOf s pid cc cid2).order) ∧
     (create_column s pid cc cid2).2.projects = s.projects ∧
     (create_column s pid cc cid2).2.tasks = s.tasks ∧
     (create_column s pid cc cid2).2.columns = s.columns ++ [newColumnOf s pid cc cid2] ∧
     (denseProjectColumns s pid →
       (newColumnOf s pid cc cid2).order = ((columnsOf s pid).length : Int))) := by
  constructor
  · refine ⟨?_, rfl, ?_, ?_, ?_⟩
    · rw [create_task_ok s pid tc tid hp hc]
    · intro u hu
      have hle : u.order ≤ pyMax (-1) ((tasksIn s tc.column_id).map Task.order) :=
        le_pyMax _ _ _ (List.mem_map_of_mem Task.order hu)
      have : (newTaskOf s pid tc tid).order =
          pyMax (-1) ((tasksIn s tc.column_id).map Task.order) + 1 := rfl
      omega
    · exact create_task_tasks_append s pid tc tid hp hc hfresh
    · intro hdense
      have hmax : pyMax (-1) ((tasksIn s tc.column_id).map Task.order) =
          ((tasksIn s tc.column_id).length : Int) - 1 := pyMax_of_perm_range _ _ hdense
      have : (newTaskOf s pid tc tid).order =
          pyMax (-1) ((tasksIn s tc.column_id).map Task.order) + 1 := rfl
      omega
  · refine ⟨?_, rfl, ?_, ?_, ?_, ?_, ?_⟩
    · unfold create_column
      rw [if_pos hp]
    · intro c hcmem
      have hle : c.order ≤ pyMax (-1) ((columnsOf s pid).map Column.order) :=
        le_pyMax _ _ _ (List.mem_map_of_mem Column.order hcmem)
      have : (newColumnOf s pid cc cid2).order =
          pyMax (-1) ((columnsOf s pid).map Column.order) + 1 := rfl
      omega
    · unfold create_column
      rw [if_pos hp]
    · unfold create_column
      rw [if_pos hp]
    · unfold create_column
      rw [if_pos hp]
      exact dictUpd_fresh Column.id s.columns _ hfreshc
    · intro hdense
      have hmax : pyMax (-1) ((columnsOf s pid).map Column.order) =
          ((columnsOf s pid).length : Int) - 1 := pyMax_of_perm_range _ _ hdense
      have : (newColumnOf s pid cc cid2).order =
          pyMax (-1) ((columnsOf s pid).map Column.order) + 1 := rfl
      omega

theorem C3_append_max_plus_one_witness :
    ((create_task holeStore3 "p1" ⟨"C", none, "c1"⟩ "h3").1 =
        .ok (newTaskOf holeStore3 "p1" ⟨"C", none, "c1"⟩ "h3") ∧
     (newTaskOf holeStore3 "p1" ⟨"C", none, "c1"⟩ "h3").order =
       pyMax (-1) ((tasksIn holeStore3 "c1").map Task.order) + 1 ∧
     (∀ u ∈ tasksIn holeStore3 "c1",
       u.order < (newTaskOf holeStore3 "p1" ⟨"C", none, "c1"⟩ "h3").order) ∧
     (create_task holeStore3 "p1" ⟨"C", none, "c1"⟩ "h3").2.tasks =
       holeStore3.tasks ++ [newTaskOf holeStore3 "p1" ⟨"C", none, "c1"⟩ "h3"] ∧
     (denseColumn holeStore3 "c1" →
       (newTaskOf holeStore3 "p1" ⟨"C", none, "c1"⟩ "h3").order =
         ((tasksIn holeStore3 "c1").length : Int))) ∧
    ((create_column holeStore3 "p1" ⟨"Extra"⟩ "c9").1 =
        .ok (newColumnOf holeStore3 "p1" ⟨"Extra"⟩ "c9") ∧
     (newColumnOf holeStore3 "p1" ⟨"Extra"⟩ "c9").order =
       pyMax (-1) ((columnsOf holeStore3 "p1").map Column.order) + 1 ∧
     (∀ c ∈ columnsOf holeStore3 "p1",
       c.order < (newColumnOf holeStore3 "p1" ⟨"Extra"⟩ "c9").order) ∧
     (create_column holeStore3 "p1" ⟨"Extra"⟩ "c9").2.projects = holeStore3.projects ∧
     (create_column holeStore3 "p1" ⟨"Extra"⟩ "c9").2.tasks = holeStore3.tasks ∧
     (create_column holeStore3 "p1" ⟨"Extra"⟩ "c9").2.columns =
       holeStore3.columns ++ [newColumnOf holeStore3 "p1" ⟨"Extra"⟩ "c9"] ∧
     (denseProjectColumns holeStore3 "p1" →
       (newColumnOf holeStore3 "p1" ⟨"Extra"⟩ "c9").order =
         ((columnsOf holeStore3 "p1").length : Int))) :=
  C3_append_max_plus_one holeStore3 "p1" ⟨"C", none, "c1"⟩ ⟨"Extra"⟩ "h3" "c9"
    (by decide) (by decide) (by decide) (by decide)

/-- C9: `move_task` checks only that the task and the target column exist —
never that they belong to the same project — so a cross-project move
succeeds; it changes only the task's `column_id` and the orders of tasks in
the destination column, and the moved task keeps its id, `project_id`,
title and description, so after a cross-project move the task's
`project_id` differs from its owning column's `project_id`. -/
theorem C9_cross_project_move (s : Store) (task_id : String) (payload : TaskMove) (task : Task)
    (hwf : WF s)
    (hfind : s.tasks.find? (fun u => u.id == task_id) = some task)
    (hcol : s.columns.any (fun c => c.id == payload.column_id) = true) :
    (move_task s task_id payload).1 = .ok (movedTask s task_id payload task) ∧
    (movedTask s task_id payload task).id = task.id ∧
    (movedTask s task_id payload task).project_id = task.project_id ∧
    (movedTask s task_id payload task).title = task.title ∧
    (movedTask s task_id payload task).description = task.description ∧
    (movedTask s task_id payload task).column_id = payload.column_id ∧
    (move_task s task_id payload).2.projects = s.projects ∧
    (move_task s task_id payload).2.columns = s.columns ∧
    (∀ u ∈ s.tasks, u.id ≠ task_id → u.column_id ≠ payload.column_id →
      u ∈ (move_task s task_id payload).2.tasks) ∧
    (∀ u ∈ s.tasks, u.id ≠ task_id → u.column_id = payload.column_id →
      ∃ u' ∈ (move_task s task_id payload).2.tasks, u'.id = u.id ∧
        u'.project_id = u.project_id ∧ u'.column_id = u.column_id ∧
        u'.title = u.title ∧ u'.description = u.description) ∧
    (∀ c ∈ s.columns, c.id = payload.column_id → c.project_id ≠ task.project_id →
      (movedTask s task_id payload task).project_id ≠ c.project_id) := by
  refine ⟨move_result_ok s task_id payload task hfind hcol, rfl, rfl, rfl, rfl, rfl,
    move_projects_eq s task_id payload task hfind hcol,
    move_columns_eq s task_id payload task hfind hcol, ?_, ?_, ?_⟩
  · intro u hu h1 h2
    exact move_untouched_mem s task_id payload task u hwf hfind hcol hu h1 h2
  · intro u hu h1 h2
    exact move_dest_fields s task_id payload task u hwf hfind hcol hu h1 h2
  · intro c _ _ hne
    intro hc
    exact hne hc.symm

theorem C9_cross_project_move_witness :
    (move_task cexStore3 "t1" ⟨"c1", 0⟩).1 =
      .ok (movedTask cexStore3 "t1" ⟨"c1", 0⟩ ⟨"t1", "p2", "d1", "T", none, 0⟩) ∧
    (movedTask cexStore3 "t1" ⟨"c1", 0⟩ ⟨"t1", "p2", "d1", "T", none, 0⟩).project_id = "p2" ∧
    (movedTask cexStore3 "t1" ⟨"c1", 0⟩ ⟨"t1", "p2", "d1", "T", none, 0⟩).column_id = "c1" ∧
    (∀ c ∈ cexStore3.columns, c.id = "c1" → c.project_id ≠ "p2" →
      (movedTask cexStore3 "t1" ⟨"c1", 0⟩ ⟨"t1", "p2", "d1", "T", none, 0⟩).project_id ≠
        c.project_id) := by
  have h := C9_cross_project_move cexStore3 "t1" ⟨"c1", 0⟩ ⟨"t1", "p2", "d1", "T", none, 0⟩
    (by decide) (by decide) (by decide)
  exact ⟨h.1, rfl, rfl, h.2.2.2.2.2.2.2.2.2.2⟩

theorem proj_id_of_find (s : Store) (pid : String) (project : Project)
    (hfind : s.projects.find? (fun p => p.id == pid) = some project) :
    project.id = pid := by
  have h := List.find?_some hfind
  simpa using h

theorem mem_dictUpd_of_ne {α : Type} (key : α → String) (l : List α) (x u : α)
    (hu : u ∈ l) (hne : key u ≠ key x) : u ∈ dictUpd key l x := by
  unfold dictUpd
  by_cases h : l.any (fun y => key y == key x) = true
  · rw [if_pos h]
    refine List.mem_map.2 ⟨u, hu, ?_⟩
    rw [if_neg (by simpa using hne)]
  · rw [if_neg h]
    exact List.mem_append_left _ hu

theorem update_task_shape (s : Store) (task_id : String) (tp : TaskUpdate) (task : Task)
    (htask : s.tasks.find? (fun t => t.id == task_id) = some task) :
    ∃ t', update_task s task_id tp =
        (.ok t', { s with tasks := dictUpd Task.id s.tasks t' }) ∧
      t'.id = task.id ∧ t'.project_id = task.project_id ∧
      t'.column_id = task.column_id ∧ t'.order = task.order ∧
      t'.title = (match tp.title with | .val v => v | _ => task.title) ∧
      t'.description = (match tp.description with
        | .unset => task.description | .null => none | .val v => some v) := by
  obtain ⟨tt, td⟩ := tp
  unfold update_task
  rw [htask]
  cases tt <;> cases td <;> exact ⟨_, rfl, rfl, rfl, rfl, rfl, rfl, rfl⟩

theorem update_project_shape (s : Store) (pid : String) (pp : ProjectUpdate)
    (project : Project)
    (hproj : s.projects.find? (fun p => p.id == pid) = some project) :
    ∃ p', update_project s pid pp =
        (.ok p', { s with projects := dictUpd Project.id s.projects p' }) ∧
      p'.id = project.id ∧
      p'.name = (match pp.name with | .val v => v | _ => project.name) ∧
      p'.description = (match pp.description with
        | .unset => project.description | .null => none | .val v => some v) := by
  obtain ⟨pn, pd⟩ := pp
  unfold update_project
  rw [hproj]
  cases pn <;> cases pd <;> exact ⟨_, rfl, rfl, rfl, rfl⟩

/-- C10: partial updates treat "field omitted" and "field explicitly null"
differently and asymmetrically per field: an explicitly-null description
clears the description to null while an omitted one leaves it unchanged,
whereas an explicitly-null title (resp. project name) is ignored — title and
name can only be replaced by a non-null value, never cleared; every other
field and every other entity is unchanged. -/
theorem C10_update_patch_semantics (s : Store) (task_id pid : String)
    (tp : TaskUpdate) (pp : ProjectUpdate) (task : Task) (project : Project)
    (htask : s.tasks.find? (fun t => t.id == task_id) = some task)
    (hproj : s.projects.find? (fun p => p.id == pid) = some project) :
    (∃ t', (update_task s task_id tp).1 = .ok t' ∧
      t'.id = task.id ∧ t'.project_id = task.project_id ∧
      t'.column_id = task.column_id ∧ t'.order = task.order ∧
      (tp.title = .null → t'.title = task.title) ∧
      (tp.title = .unset → t'.title = task.title) ∧
      (∀ v, tp.title = .val v → t'.title = v) ∧
      (tp.description = .unset → t'.description = task.description) ∧
      (tp.description = .null → t'.description = none) ∧
      (∀ v, tp.description = .val v → t'.description = some v)) ∧
    (update_task s task_id tp).2.projects = s.projects ∧
    (update_task s task_id tp).2.columns = s.columns ∧
    (∀ u ∈ s.tasks, u.id ≠ task_id → u ∈ (update_task s task_id tp).2.tasks) ∧
    (∃ p', (update_project s pid pp).1 = .ok p' ∧
      p'.id = project.id ∧
      (pp.name = .null → p'.name = project.name) ∧
      (pp.name = .unset → p'.name = project.name) ∧
      (∀ v, pp.name = .val v → p'.name = v) ∧
      (pp.description = .unset → p'.description = project.description) ∧
      (pp.description = .null → p'.description = none) ∧
      (∀ v, pp.description = .val v → p'.description = some v)) ∧
    (update_project s pid pp).2.columns = s.columns ∧
    (update_project s pid pp).2.tasks = s.tasks ∧
    (∀ u ∈ s.projects, u.id ≠ pid → u ∈ (update_project s pid pp).2.projects) := by
  rcases update_task_shape s task_id tp task htask with
    ⟨t', hteq, htid, htproj, htcol, htord, httitle, htdesc⟩
  rcases update_project_shape s pid pp project hproj with
    ⟨p', hpeq, hpid, hpname, hpdesc⟩
  refine ⟨⟨t', by rw [hteq], htid, htproj, htcol, htord, ?_, ?_, ?_, ?_, ?_, ?_⟩,
    by rw [hteq], by rw [hteq], ?_,
    ⟨p', by rw [hpeq], hpid, ?_, ?_, ?_, ?_, ?_, ?_⟩,
    by rw [hpeq], by rw [hpeq], ?_⟩
  · intro h; rw [httitle, h]
  · intro h; rw [httitle, h]
  · intro v h; rw [httitle, h]
  · intro h; rw [htdesc, h]
  · intro h; rw [htdesc, h]
  · intro v h; rw [htdesc, h]
  · intro u hu hne
    rw [hteq]
    refine mem_dictUpd_of_ne Task.id s.tasks t' u hu ?_
    show u.id ≠ t'.id
    rw [htid, task_id_of_find s task_id task htask]
    exact hne
  · intro h; rw [hpname, h]
  · intro h; rw [hpname, h]
  · intro v h; rw [hpname, h]
  · intro h; rw [hpdesc, h]
  · intro h; rw [hpdesc, h]
  · intro v h; rw [hpdesc, h]
  · intro u hu hne
    rw [hpeq]
    refine mem_dictUpd_of_ne Project.id s.projects p' u hu ?_
    show u.id ≠ p'.id
    rw [hpid, proj_id_of_find s pid project hproj]
    exact hne

theorem C10_update_patch_semantics_witness :
    (∃ t', (update_task demoStore "tA" ⟨.null, .null⟩).1 = .ok t' ∧
      t'.id = "tA" ∧ t'.project_id = "p1" ∧ t'.column_id = "c1" ∧ t'.order = 0 ∧
      ((Patch.null : Patch String) = .null → t'.title = "A") ∧
      ((Patch.null : Patch String) = .unset → t'.title = "A") ∧
      (∀ v, (Patch.null : Patch String) = .val v → t'.title = v) ∧
      ((Patch.null : Patch String) = .unset → t'.description = none) ∧
      ((Patch.null : Patch String) = .null → t'.description = none) ∧
      (∀ v, (Patch.null : Patch String) = .val v → t'.description = some v)) ∧
    (update_task demoStore "tA" ⟨.null, .null⟩).2.projects = demoStore.projects ∧
    (update_task demoStore "tA" ⟨.null, .null⟩).2.columns = demoStore.columns ∧
    (∀ u ∈ demoStore.tasks, u.id ≠ "tA" →
      u ∈ (update_task demoStore "tA" ⟨.null, .null⟩).2.tasks) ∧
    (∃ p', (update_project demoStore "p1" ⟨.null, .val "newdesc"⟩).1 = .ok p' ∧
      p'.id = "p1" ∧
      ((Patch.null : Patch String) = .null → p'.name = "P") ∧
      ((Patch.null : Patch String) = .unset → p'.name = "P") ∧
      (∀ v, (Patch.null : Patch String) = .val v → p'.name = v) ∧
      ((Patch.val "newdesc" : Patch String) = .unset → p'.description = none) ∧
      ((Patch.val "newdesc" : Patch String) = .null → p'.description = none) ∧
      (∀ v, (Patch.val "newdesc" : Patch String) = .val v → p'.description = some v)) ∧
    (update_project demoStore "p1" ⟨.null, .val "newdesc"⟩).2.columns = demoStore.columns ∧
    (update_project demoStore "p1" ⟨.null, .val "newdesc"⟩).2.tasks = demoStore.tasks ∧
    (∀ u ∈ demoStore.projects, u.id ≠ "p1" →
      u ∈ (update_project demoStore "p1" ⟨.null, .val "newdesc"⟩).2.projects) :=
  C10_update_patch_semantics demoStore "tA" "p1" ⟨.null, .null⟩ ⟨.null, .val "newdesc"⟩
    ⟨"tA", "p1", "c1", "A", none, 0⟩ ⟨"p1", "P", none⟩ (by decide) (by decide)

/-! ### NotFound characterization of every operation -/

theorem any_key_iff {α : Type} (key : α → String) (l : List α) (k : String) :
    (l.any (fun x => key x == k) = true) ↔ k ∈ l.map key := by
  rw [List.any_eq_true]
  constructor
  · rintro ⟨x, hx, hk⟩
    simp only [beq_iff_eq] at hk
    exact hk ▸ List.mem_map_of_mem key hx
  · intro h
    rcases List.mem_map.1 h with ⟨x, hx, hk⟩
    exact ⟨x, hx, by simp [hk]⟩

theorem find_key_none_iff {α : Type} (key : α → String) (l : List α) (k : String) :
    (l.find? (fun x => key x == k) = none) ↔ k ∉ l.map key := by
  rw [List.find?_eq_none]
  constructor
  · intro h hmem
    rcases List.mem_map.1 hmem with ⟨x, hx, hk⟩
    have := h x hx
    simp only [beq_iff_eq] at this
    exact this hk
  · intro h x hx
    simp only [beq_iff_eq]
    intro hc
    exact h (hc ▸ List.mem_map_of_mem key hx)

theorem get_project_err_iff (s : Store) (pid : String) :
    ((∃ e, (get_project s pid).1 = .error e) ↔ pid ∉ s.projects.map Project.id) ∧
    (get_project s pid).2 = s := by
  cases hfind : s.projects.find? (fun p => p.id == pid) with
  | none =>
    unfold get_project
    rw [hfind]
    exact ⟨⟨fun _ => (find_key_none_iff Project.id s.projects pid).1 hfind,
      fun _ => ⟨_, rfl⟩⟩, rfl⟩
  | some p =>
    have hmem : pid ∈ s.projects.map Project.id := by
      rw [← proj_id_of_find s pid p hfind]
      exact List.mem_map_of_mem Project.id (List.mem_of_find?_eq_some hfind)
    unfold get_project
    rw [hfind]
    refine ⟨⟨?_, fun h => absurd hmem h⟩, rfl⟩
    rintro ⟨e, he⟩
    simp at he

theorem update_project_err_iff (s : Store) (pid : String) (pu : ProjectUpdate) :
    ((∃ e, (update_project s pid pu).1 = .error e) ↔ pid ∉ s.projects.map Project.id) ∧
    (∀ e, (update_project s pid pu).1 = .error e → (update_project s pid pu).2 = s) := by
  cases hfind : s.projects.find? (fun p => p.id == pid) with
  | none =>
    unfold update_project
    rw [hfind]
    exact ⟨⟨fun _ => (find_key_none_iff Project.id s.projects pid).1 hfind,
      fun _ => ⟨_, rfl⟩⟩, fun e _ => rfl⟩
  | some p =>
    have hmem : pid ∈ s.projects.map Project.id := by
      rw [← proj_id_of_find s pid p hfind]
      exact List.mem_map_of_mem Project.id (List.mem_of_find?_eq_some hfind)
    refine ⟨⟨?_, fun h => absurd hmem h⟩, ?_⟩
    · rintro ⟨e, he⟩
      unfold update_project at he
      rw [hfind] at he
      simp at he
    · intro e he
      unfold update_project at he
      rw [hfind] at he
      simp at he

theorem delete_project_err_iff (s : Store) (pid : String) :
    ((∃ e, (delete_project s pid).1 = .error e) ↔ pid ∉ s.projects.map Project.id) ∧
    (∀ e, (delete_project s pid).1 = .error e → (delete_project s pid).2 = s) := by
  cases hany : s.projects.any (fun p => p.id == pid) with
  | true =>
    unfold delete_project
    rw [if_pos hany]
    refine ⟨⟨?_, fun h => absurd ((any_key_iff Project.id s.projects pid).1 hany) h⟩, ?_⟩
    · rintro ⟨e, he⟩
      simp at he
    · intro e he
      simp at he
  | false =>
    unfold delete_project
    rw [if_neg (by simp [hany])]
    refine ⟨⟨fun _ => ?_, fun _ => ⟨_, rfl⟩⟩, fun e _ => rfl⟩
    intro hmem
    rw [(any_key_iff Project.id s.projects pid).2 hmem] at hany
    cases hany

theorem get_kanban_board_err_iff (s : Store) (pid : String) :
    ((∃ e, (get_kanban_board s pid).1 = .error e) ↔ pid ∉ s.projects.map Project.id) ∧
    (get_kanban_board s pid).2 = s := by
  cases hfind : s.projects.find? (fun p => p.id == pid) with
  | none =>
    unfold get_kanban_board
    rw [hfind]
    exact ⟨⟨fun _ => (find_key_none_iff Project.id s.projects pid).1 hfind,
      fun _ => ⟨_, rfl⟩⟩, rfl⟩
  | some p =>
    have hmem : pid ∈ s.projects.map Project.id := by
      rw [← proj_id_of_find s pid p hfind]
      exact List.mem_map_of_mem Project.id (List.mem_of_find?_eq_some hfind)
    unfold get_kanban_board
    rw [hfind]
    refine ⟨⟨?_, fun h => absurd hmem h⟩, rfl⟩
    rintro ⟨e, he⟩
    simp at he

theorem create_column_err_iff (s : Store) (pid : String) (cc : ColumnCreate) (nid : String) :
    ((∃ e, (create_column s pid cc nid).1 = .error e) ↔ pid ∉ s.projects.map Project.id) ∧
    (∀ e, (create_column s pid cc nid).1 = .error e → (create_column s pid cc nid).2 = s) := by
  cases hany : s.projects.any (fun p => p.id == pid) with
  | true =>
    unfold create_column
    rw [if_pos hany]
    refine ⟨⟨?_, fun h => absurd ((any_key_iff Project.id s.projects pid).1 hany) h⟩, ?_⟩
    · rintro ⟨e, he⟩
      simp at he
    · intro e he
      simp at he
  | false =>
    unfold create_column
    rw [if_neg (by simp [hany])]
    refine ⟨⟨fun _ => ?_, fun _ => ⟨_, rfl⟩⟩, fun e _ => rfl⟩
    intro hmem
    rw [(any_key_iff Project.id s.projects pid).2 hmem] at hany
    cases hany

theorem create_task_err_iff (s : Store) (pid : String) (tc : TaskCreate) (nid : String) :
    ((∃ e, (create_task s pid tc nid).1 = .error e) ↔
      (pid ∉ s.projects.map Project.id ∨ tc.column_id ∉ s.columns.map Column.id)) ∧
    (∀ e, (create_task s pid tc nid).1 = .error e → (create_task s pid tc nid).2 = s) := by
  cases hp : s.projects.any (fun p => p.id == pid) with
  | false =>
    rw [create_task_fail_proj s pid tc nid hp]
    refine ⟨⟨fun _ => Or.inl ?_, fun _ => ⟨_, rfl⟩⟩, fun e _ => rfl⟩
    intro hmem
    rw [(any_key_iff Project.id s.projects pid).2 hmem] at hp
    cases hp
  | true =>
    cases hc : s.columns.any (fun c => c.id == tc.column_id) with
    | false =>
      rw [create_task_fail_col s pid tc nid hp hc]
      refine ⟨⟨fun _ => Or.inr ?_, fun _ => ⟨_, rfl⟩⟩, fun e _ => rfl⟩
      intro hmem
      rw [(any_key_iff Column.id s.columns tc.column_id).2 hmem] at hc
      cases hc
    | true =>
      rw [create_task_ok s pid tc nid hp hc]
      refine ⟨⟨?_, ?_⟩, ?_⟩
      · rintro ⟨e, he⟩
        simp at he
      · rintro (h | h)
        · exact absurd ((any_key_iff Project.id s.projects pid).1 hp) h
        · exact absurd ((any_key_iff Column.id s.columns tc.column_id).1 hc) h
      · intro e he
        simp at he

theorem move_task_err_iff (s : Store) (task_id : String) (tm : TaskMove) :
    ((∃ e, (move_task s task_id tm).1 = .error e) ↔
      (task_id ∉ s.tasks.map Task.id ∨ tm.column_id ∉ s.columns.map Column.id)) ∧
    (∀ e, (move_task s task_id tm).1 = .error e → (move_task s task_id tm).2 = s) := by
  cases hfind : s.tasks.find? (fun t => t.id == task_id) with
  | none =>
    rw [move_task_fail_find s task_id tm hfind]
    exact ⟨⟨fun _ => Or.inl ((find_key_none_iff Task.id s.tasks task_id).1 hfind),
      fun _ => ⟨_, rfl⟩⟩, fun e _ => rfl⟩
  | some task =>
    have hmem : task_id ∈ s.tasks.map Task.id := by
      rw [← task_id_of_find s task_id task hfind]
      exact List.mem_map_of_mem Task.id (List.mem_of_find?_eq_some hfind)
    cases hcol : s.columns.any (fun c => c.id == tm.column_id) with
    | false =>
      rw [move_task_fail_col s task_id tm task hfind hcol]
      refine ⟨⟨fun _ => Or.inr ?_, fun _ => ⟨_, rfl⟩⟩, fun e _ => rfl⟩
      intro hc
      rw [(any_key_iff Column.id s.columns tm.column_id).2 hc] at hcol
      cases hcol
    | true =>
      refine ⟨⟨?_, ?_⟩, ?_⟩
      · rintro ⟨e, he⟩
        rw [move_result_ok s task_id tm task hfind hcol] at he
        simp at he
      · rintro (h | h)
        · exact absurd hmem h
        · exact absurd ((any_key_iff Column.id s.columns tm.column_id).1 hcol) h
      · intro e he
        rw [move_result_ok s task_id tm task hfind hcol] at he
        simp at he

theorem delete_task_err_iff (s : Store) (task_id : String) :
    ((∃ e, (delete_task s task_id).1 = .error e) ↔ task_id ∉ s.tasks.map Task.id) ∧
    (∀ e, (delete_task s task_id).1 = .error e → (delete_task s task_id).2 = s) := by
  cases hany : s.tasks.any (fun t => t.id == task_id) with
  | true =>
    unfold delete_task
    rw [if_pos hany]
    refine ⟨⟨?_, fun h => absurd ((any_key_iff Task.id s.tasks task_id).1 hany) h⟩, ?_⟩
    · rintro ⟨e, he⟩
      simp at he
    · intro e he
      simp at he
  | false =>
    unfold delete_task
    rw [if_neg (by simp [hany])]
    refine ⟨⟨fun _ => ?_, fun _ => ⟨_, rfl⟩⟩, fun e _ => rfl⟩
    intro hmem
    rw [(any_key_iff Task.id s.tasks task_id).2 hmem] at hany
    cases hany

theorem update_task_err_iff (s : Store) (task_id : String) (tu : TaskUpdate) :
    ((∃ e, (update_task s task_id tu).1 = .error e) ↔ task_id ∉ s.tasks.map Task.id) ∧
    (∀ e, (update_task s task_id tu).1 = .error e → (update_task s task_id tu).2 = s) := by
  cases hfind : s.tasks.find? (fun t => t.id == task_id) with
  | none =>
    unfold update_task
    rw [hfind]
    exact ⟨⟨fun _ => (find_key_none_iff Task.id s.tasks task_id).1 hfind,
      fun _ => ⟨_, rfl⟩⟩, fun e _ => rfl⟩
  | some task =>
    have hmem : task_id ∈ s.tasks.map Task.id := by
      rw [← task_id_of_find s task_id task hfind]
      exact List.mem_map_of_mem Task.id (List.mem_of_find?_eq_some hfind)
    refine ⟨⟨?_, fun h => absurd hmem h⟩, ?_⟩
    · rintro ⟨e, he⟩
      unfold update_task at he
      rw [hfind] at he
      simp at he
    · intro e he
      unfold update_task at he
      rw [hfind] at he
      simp at he

/-- C8: an operation raises NotFound exactly when a referenced
project/column/task id is absent from the store (`create_project` never
fails; `create_task` and `move_task` reference two ids), and whenever
NotFound is raised the entire store is returned unchanged — all validation
happens before any mutation. -/
theorem C8_notfound_iff (s : Store) (pid task_id : String) (pc : ProjectCreate)
    (pu : ProjectUpdate) (cc : ColumnCreate) (tc : TaskCreate) (tm : TaskMove)
    (tu : TaskUpdate) (nid1 nid2 nid3 nid4 nid5 nid6 : String) :
    ((create_project s pc nid1 nid2 nid3 nid4).1 = .ok ⟨nid1, pc.name, pc.description⟩) ∧
    ((∃ e, (get_project s pid).1 = .error e) ↔ pid ∉ s.projects.map Project.id) ∧
    ((get_project s pid).2 = s) ∧
    ((∃ e, (update_project s pid pu).1 = .error e) ↔ pid ∉ s.projects.map Project.id) ∧
    (∀ e, (update_project s pid pu).1 = .error e → (update_project s pid pu).2 = s) ∧
    ((∃ e, (delete_project s pid).1 = .error e) ↔ pid ∉ s.projects.map Project.id) ∧
    (∀ e, (delete_project s pid).1 = .error e → (delete_project s pid).2 = s) ∧
    ((∃ e, (get_kanban_board s pid).1 = .error e) ↔ pid ∉ s.projects.map Project.id) ∧
    ((get_kanban_board s pid).2 = s) ∧
    ((∃ e, (create_column s pid cc nid5).1 = .error e) ↔ pid ∉ s.projects.map Project.id) ∧
    (∀ e, (create_column s pid cc nid5).1 = .error e → (create_column s pid cc nid5).2 = s) ∧
    ((∃ e, (create_task s pid tc nid6).1 = .error e) ↔
      (pid ∉ s.projects.map Project.id ∨ tc.column_id ∉ s.columns.map Column.id)) ∧
    (∀ e, (create_task s pid tc nid6).1 = .error e → (create_task s pid tc nid6).2 = s) ∧
    ((∃ e, (move_task s task_id tm).1 = .error e) ↔
      (task_id ∉ s.tasks.map Task.id ∨ tm.column_id ∉ s.columns.map Column.id)) ∧
    (∀ e, (move_task s task_id tm).1 = .error e → (move_task s task_id tm).2 = s) ∧
    ((∃ e, (delete_task s task_id).1 = .error e) ↔ task_id ∉ s.tasks.map Task.id) ∧
    (∀ e, (delete_task s task_id).1 = .error e → (delete_task s task_id).2 = s) ∧
    ((∃ e, (update_task s task_id tu).1 = .error e) ↔ task_id ∉ s.tasks.map Task.id) ∧
    (∀ e, (update_task s task_id tu).1 = .error e → (update_task s task_id tu).2 = s) :=
  ⟨rfl,
   (get_project_err_iff s pid).1, (get_project_err_iff s pid).2,
   (update_project_err_iff s pid pu).1, (update_project_err_iff s pid pu).2,
   (delete_project_err_iff s pid).1, (delete_project_err_iff s pid).2,
   (get_kanban_board_err_iff s pid).1, (get_kanban_board_err_iff s pid).2,
   (create_column_err_iff s pid cc nid5).1, (create_column_err_iff s pid cc nid5).2,
   (create_task_err_iff s pid tc nid6).1, (create_task_err_iff s pid tc nid6).2,
   (move_task_err_iff s task_id tm).1, (move_task_err_iff s task_id tm).2,
   (delete_task_err_iff s task_id).1, (delete_task_err_iff s task_id).2,
   (update_task_err_iff s task_id tu).1, (update_task_err_iff s task_id tu).2⟩

theorem C8_notfound_iff_witness :
    (∃ e, (move_task demoStore "zzz" ⟨"c1", 0⟩).1 = .error e) ∧
    (move_task demoStore "zzz" ⟨"c1", 0⟩).2 = demoStore ∧
    ¬ (∃ e, (delete_task demoStore "tA").1 = .error e) := by
  have h := C8_notfound_iff demoStore "p1" "zzz" ⟨"P2", none⟩ ⟨.unset, .unset⟩
    ⟨"N"⟩ ⟨"T", none, "c1"⟩ ⟨"c1", 0⟩ ⟨.unset, .unset⟩ "a" "b" "c" "d" "e" "f"
  have h2 := C8_notfound_iff demoStore "p1" "tA" ⟨"P2", none⟩ ⟨.unset, .unset⟩
    ⟨"N"⟩ ⟨"T", none, "c1"⟩ ⟨"c1", 0⟩ ⟨.unset, .unset⟩ "a" "b" "c" "d" "e" "f"
  obtain ⟨_, _, _, _, _, _, _, _, _, _, _, _, _, hmv, hmvst, _, _, _, _⟩ := h
  obtain ⟨_, _, _, _, _, _, _, _, _, _, _, _, _, _, _, hdel, _, _, _⟩ := h2
  have herr : ∃ e, (move_task demoStore "zzz" ⟨"c1", 0⟩).1 = .error e :=
    hmv.2 (by decide)
  refine ⟨herr, ?_, ?_⟩
  · rcases herr with ⟨e, he⟩
    exact hmvst e he
  · intro hex
    exact absurd (hdel.1 hex) (by decide)

end ProjectTracker
